import Mathlib

set_option maxHeartbeats 1000000

/-!
Verification development for the AutoPR figure/table pairing pipeline
(`pragent/backend/figure_table_pipeline.py` and `pragent/backend/yolo.py`).

The Python code is shallowly embedded: directory listings become explicit
lists of filenames, file paths become `(class directory, filename)` pairs,
dictionaries become insertion-ordered association lists, and the regex
`([a-zA-Z_]+)_(\d+)_score([\d.]+)\.jpg` is embedded as a greedy
backtracking matcher over `List Char` with ASCII character classes.
-/

namespace AutoPR

/-! ### Character classes of the regex (ASCII, via code points) -/

/-- `[a-zA-Z]` -/
def isAl (c : Char) : Bool := (65 ≤ c.toNat && c.toNat ≤ 90) || (97 ≤ c.toNat && c.toNat ≤ 122)

/-- `[a-zA-Z_]` -/
def isCls1 (c : Char) : Bool := isAl c || c == '_'

/-- The maximal code-point runs of Unicode general category `Nd` (decimal
digits), as `(first, last)` pairs.  Python's un-flagged `\d` on `str`
patterns matches exactly these characters; every run length is a multiple
of ten and the digit value of a character is `(code - first) % 10`. -/
def ndRanges : List (Nat × Nat) :=
  [(48, 57), (1632, 1641), (1776, 1785), (1984, 1993), (2406, 2415), (2534, 2543),
   (2662, 2671), (2790, 2799), (2918, 2927), (3046, 3055), (3174, 3183), (3302, 3311),
   (3430, 3439), (3558, 3567), (3664, 3673), (3792, 3801), (3872, 3881), (4160, 4169),
   (4240, 4249), (6112, 6121), (6160, 6169), (6470, 6479), (6608, 6617), (6784, 6793),
   (6800, 6809), (6992, 7001), (7088, 7097), (7232, 7241), (7248, 7257), (42528, 42537),
   (43216, 43225), (43264, 43273), (43472, 43481), (43504, 43513), (43600, 43609),
   (44016, 44025), (65296, 65305), (66720, 66729), (68912, 68921), (69734, 69743),
   (69872, 69881), (69942, 69951), (70096, 70105), (70384, 70393), (70736, 70745),
   (70864, 70873), (71248, 71257), (71360, 71369), (71472, 71481), (71904, 71913),
   (72016, 72025), (72784, 72793), (73040, 73049), (73120, 73129), (92768, 92777),
   (92864, 92873), (93008, 93017), (120782, 120831), (123200, 123209), (123632, 123641),
   (125264, 125273), (130032, 130041)]

/-- `\d`: any Unicode decimal digit (category `Nd`). -/
def isDig (c : Char) : Bool := ndRanges.any (fun r => r.1 ≤ c.toNat && c.toNat ≤ r.2)

/-- `[\d.]` -/
def isCls3 (c : Char) : Bool := isDig c || c == '.'

/-- Numeric value of a Unicode decimal digit, as Python `int` interprets
it (e.g. `'١'` ↦ 1). -/
def digitVal (c : Char) : Nat :=
  match ndRanges.find? (fun r => r.1 ≤ c.toNat && c.toNat ≤ r.2) with
  | some r => (c.toNat - r.1) % 10
  | none => 0

/-- Numeric value of a digit string, as Python `int` on `group(2)`. -/
def natOfDigits (l : List Char) : Nat := l.foldl (fun n c => n * 10 + digitVal c) 0

/-- Match a literal character sequence at the front of the input,
returning the remainder on success. -/
def dropLit : List Char → List Char → Option (List Char)
  | [], cs => some cs
  | _ :: _, [] => none
  | l :: ls, c :: cs => if c = l then dropLit ls cs else none

/-- First non-`none` element of a list of options. -/
def firstSome : List (Option α) → Option α
  | [] => none
  | some x :: _ => some x
  | none :: l => firstSome l

/-- Greedy backtracking for a `X+` regex group whose maximal run is `g`:
try the longest nonempty prefix of `g` first, pushing the rejected suffix
back in front of `rest`, exactly as the Python regex engine does. -/
def tryLongest (cont : List Char → List Char → Option α) (g rest : List Char) : Option α :=
  firstSome ((List.range g.length).map (fun j =>
    let k := g.length - j
    cont (g.take k) (g.drop k ++ rest)))

/-- `span`: maximal run satisfying `p`, and the remainder. -/
def spanP (p : Char → Bool) (l : List Char) : List Char × List Char :=
  (l.takeWhile p, l.dropWhile p)

/-- `re.match(r'([a-zA-Z_]+)_(\d+)_score([\d.]+)\.jpg', ...)` on a list of
characters, returning `(group(1), int(group(2)))`, `none` when there is no
match.  `re.match` anchors at the start only; trailing characters after the
pattern are accepted. -/
def parseCore (cs : List Char) : Option (String × Nat) :=
  let sp1 := spanP isCls1 cs
  tryLongest (fun g1 rest1 =>
    match dropLit ['_'] rest1 with
    | none => none
    | some rest2 =>
      let sp2 := spanP isDig rest2
      tryLongest (fun g2 rest3 =>
        match dropLit ['_', 's', 'c', 'o', 'r', 'e'] rest3 with
        | none => none
        | some rest4 =>
          let sp3 := spanP isCls3 rest4
          tryLongest (fun _ rest5 =>
            match dropLit ['.', 'j', 'p', 'g'] rest5 with
            | none => none
            | some _ => some (String.mk g1, natOfDigits g2)) sp3.1 sp3.2) sp2.1 sp2.2) sp1.1 sp1.2

/-- `parse_filename` from `figure_table_pipeline.py`: recover
`(class_name, position_index)` from a cropped component's filename,
`none` (the `(None, None)` sentinel) when the pattern does not match. -/
def parse_filename (filename : String) : Option (String × Nat) := parseCore filename.toList

example : parse_filename "figure_12_score0.95.jpg" = some ("figure", 12) := by decide
example : parse_filename "table_caption_above_3_score0.9.jpg" = some ("table_caption_above", 3) := by decide
example : parse_filename "page.png" = none := by decide
example : parse_filename "fig_1_2_score0.5.jpg" = none := by decide
example : parse_filename "figure_0_score...jpgX" = some ("figure", 0) := by decide
example : parse_filename "figure_0_score0.9.jpg.bak" = some ("figure", 0) := by decide
example : parse_filename "figure_١_score0.9.jpg" = some ("figure", 1) := by decide
example : parse_filename "figure_3_score٣.jpg" = some ("figure", 3) := by decide

/-! ### `pair_items_on_page` -/

/-- A persisted component file inside a page directory, identified by the
class directory it sits in and its filename (the page directory itself is
common to everything in one call and is dropped). -/
structure FP where
  compType : String
  filename : String
deriving DecidableEq

/-- A page directory, as the pipeline observes it: `listing ct` is
`os.listdir` of the class subdirectory `ct` in directory order, `none`
when that subdirectory does not exist. -/
def Listing := String → Option (List String)

/-- The participating classes scanned by `pair_items_on_page`. -/
def component_types : List String :=
  ["figure", "figure_caption", "table", "table_caption_above", "table_caption_below"]

/-- Python `dict` assignment `d[k] = v`: replace in place if the key is
present (keeping its position, as Python dicts do), else append. -/
def dictInsert (k : Nat) (v : α) : List (Nat × α) → List (Nat × α)
  | [] => [(k, v)]
  | (k', v') :: rest => if k = k' then (k, v) :: rest else (k', v') :: dictInsert k v rest

/-- The organize loop body: insert each parsable filename of one class
directory into that class's index dictionary. -/
def organizeFiles (ct : String) : List String → List (Nat × FP) → List (Nat × FP)
  | [], d => d
  | fn :: fns, d =>
    organizeFiles ct fns
      (match parse_filename fn with
       | some (_, idx) => dictInsert idx ⟨ct, fn⟩ d
       | none => d)

/-- `organized_files[ct]` after the organize phase. -/
def organizeType (listing : Listing) (ct : String) : List (Nat × FP) :=
  match listing ct with
  | none => []
  | some files => organizeFiles ct files []

/-- `abs(item_index - cap_index)`. -/
def distance (i j : Nat) : Nat := ((i : Int) - (j : Int)).natAbs

/-- The running `best_match` record (`none` models the initial
`min_diff = inf, cap_path = None` state). -/
structure Best where
  diff : Nat
  capType : String
  capIdx : Nat
  capPath : FP
deriving DecidableEq

/-- One committed pair together with the data the code writes out. -/
structure Pair where
  itemType : String
  itemIdx : Nat
  itemPath : FP
  capType : String
  capIdx : Nat
  capPath : FP
  diff : Nat
deriving DecidableEq

/-- Mutable state of the pairing pass: committed pairs, `paired_files`
and `used_captions` (flattened to `(class, index)` pairs). -/
structure PairState where
  pairs : List Pair
  pairedFiles : List FP
  used : List (String × Nat)
deriving DecidableEq

/-- Inner scan body: skip captions already consumed, otherwise keep the
candidate iff it strictly improves the running minimum. -/
def considerCap (itemIdx : Nat) (used : List (String × Nat)) (capType : String)
    (capIdx : Nat) (capPath : FP) (best : Option Best) : Option Best :=
  if (capType, capIdx) ∈ used then best
  else
    let d := distance itemIdx capIdx
    match best with
    | none => some ⟨d, capType, capIdx, capPath⟩
    | some b => if d < b.diff then some ⟨d, capType, capIdx, capPath⟩ else best

/-- Scan the entries of one caption class's dictionary in insertion order. -/
def scanEntries (itemIdx : Nat) (used : List (String × Nat)) (capType : String) :
    List (Nat × FP) → Option Best → Option Best
  | [], best => best
  | (capIdx, capPath) :: rest, best =>
    scanEntries itemIdx used capType rest (considerCap itemIdx used capType capIdx capPath best)

/-- Scan all allowed caption classes in list order. -/
def scanCapTypes (org : String → List (Nat × FP)) (itemIdx : Nat)
    (used : List (String × Nat)) : List String → Option Best → Option Best
  | [], best => best
  | ct :: cts, best =>
    scanCapTypes org itemIdx used cts (scanEntries itemIdx used ct (org ct) best)

/-- `best_match` after the full scan for one item. -/
def bestCaption (org : String → List (Nat × FP)) (used : List (String × Nat))
    (itemIdx : Nat) (capTypes : List String) : Option Best :=
  scanCapTypes org itemIdx used capTypes none

/-- The item loop of one pass: commit a pair when a caption was found
within the threshold, marking it consumed. -/
def processItems (threshold : Nat) (org : String → List (Nat × FP)) (itemType : String)
    (capTypes : List String) : List (Nat × FP) → PairState → PairState
  | [], st => st
  | (itemIdx, itemPath) :: rest, st =>
    let st' :=
      match bestCaption org st.used itemIdx capTypes with
      | some b =>
        if b.diff ≤ threshold then
          { pairs := st.pairs ++ [⟨itemType, itemIdx, itemPath, b.capType, b.capIdx, b.capPath, b.diff⟩]
            pairedFiles := st.pairedFiles ++ [itemPath, b.capPath]
            used := st.used ++ [(b.capType, b.capIdx)] }
        else st
      | none => st
    processItems threshold org itemType capTypes rest st'

/-- The two passes, in source order: `figure` against `figure_caption`,
then `table` against the two table caption classes. -/
def runPasses (threshold : Nat) (org : String → List (Nat × FP)) : PairState :=
  processItems threshold org "table" ["table_caption_above", "table_caption_below"] (org "table")
    (processItems threshold org "figure" ["figure_caption"] (org "figure") ⟨[], [], []⟩)

/-- The unpaired-collection loop over one class's dictionary values:
every organized file not in `paired_files` is re-parsed and recorded as
`(class-from-filename, index, file)`. -/
def collectType (pf : List FP) : List (Nat × FP) → List (String × Nat × FP) → List (String × Nat × FP)
  | [], acc => acc
  | (_, fp) :: rest, acc =>
    collectType pf rest
      (if fp ∈ pf then acc
       else
         match parse_filename fp.filename with
         | some (t, i) => acc ++ [(t, i, fp)]
         | none => acc)

/-- Iterate the unpaired collection over all organized classes. -/
def collectAll (org : String → List (Nat × FP)) (pf : List FP) :
    List String → List (String × Nat × FP) → List (String × Nat × FP)
  | [], acc => acc
  | ct :: cts, acc => collectAll org pf cts (collectType pf (org ct) acc)

/-- The unpaired bucket of a page. -/
def collectUnpaired (org : String → List (Nat × FP)) (pf : List FP) : List (String × Nat × FP) :=
  collectAll org pf component_types []

/-- `pair_items_on_page`: organize, pair greedily, collect unpaired. -/
def pair_items_on_page (threshold : Nat) (listing : Listing) :
    PairState × List (String × Nat × FP) :=
  let org := organizeType listing
  let st := runPasses threshold org
  (st, collectUnpaired org st.pairedFiles)

/-- Files landing in `unpaired_*` directories. -/
def unpairedFiles (threshold : Nat) (listing : Listing) : List FP :=
  (pair_items_on_page threshold listing).2.map (fun u => u.2.2)

/-- All parsable components of the page's participating classes. -/
def parsableFiles (listing : Listing) : List FP :=
  (component_types.map (fun ct =>
    match listing ct with
    | none => []
    | some files =>
      (files.filter (fun fn => (parse_filename fn).isSome)).map (fun fn => FP.mk ct fn))).flatten

/-! ### `extract_and_save_layout_components` (`yolo.py`) -/

/-- One detection, as the Component Cropper consumes it.  The bounding
box plays no role in naming and is omitted; `score` is the confidence in
hundredths, pre-rounded (the `f"{score:.2f}"` float rendering is
externalized from the shallow embedding). -/
structure Detection where
  cls : Nat
  score : Nat
deriving DecidableEq

/-- The fixed ten-entry class table `CLASS_NAMES`. -/
def CLASS_NAMES : List (Nat × String) :=
  [(0, "title"), (1, "plain_text"), (2, "abandon"), (3, "figure"), (4, "figure_caption"),
   (5, "table"), (6, "table_caption_above"), (7, "table_caption_below"),
   (8, "formula"), (9, "formula_caption")]

/-- `CLASS_NAMES.get(cls_id, f"cls{cls_id}")`. -/
def className (clsId : Nat) : String :=
  match CLASS_NAMES.lookup clsId with
  | some n => n
  | none => "cls" ++ toString clsId

/-- Two-decimal rendering of a confidence given in hundredths. -/
def fmtScore (n : Nat) : String :=
  toString (n / 100) ++ "." ++ (if n % 100 < 10 then "0" ++ toString (n % 100) else toString (n % 100))

/-- `f"{class_name}_{idx}_score{score:.2f}.jpg"`. -/
def cropFilename (cn : String) (idx : Nat) (score : Nat) : String :=
  cn ++ "_" ++ toString idx ++ "_score" ++ fmtScore score ++ ".jpg"

/-- The cropper loop: `for idx, (box, cls_id, score) in enumerate(...)`,
producing for each detection the class directory it is saved under and
the saved filename.  `i` is the running `enumerate` counter. -/
def extractFrom (i : Nat) : List Detection → List (String × String)
  | [] => []
  | d :: ds =>
    (className d.cls, cropFilename (className d.cls) i d.score) :: extractFrom (i + 1) ds

/-- `extract_and_save_layout_components`, restricted to the persisted
`(class directory, filename)` pairs in detection order. -/
def extract_and_save_layout_components (dets : List Detection) : List (String × String) :=
  extractFrom 0 dets

/-- Modelled from the spec: the Component Cropper names each crop from the
detection's index *within its class* in detection order
(`detection_index_within_class_in_detection_order`); `seen` is the list of
class names of earlier detections. -/
def extractWithinClassFrom (seen : List String) : List Detection → List (String × String)
  | [] => []
  | d :: ds =>
    (className d.cls,
      cropFilename (className d.cls) ((seen.filter (fun x => x == className d.cls)).length) d.score) ::
      extractWithinClassFrom (seen ++ [className d.cls]) ds

/-- Modelled from the spec: cropper output with per-class indices. -/
def extract_spec_within_class (dets : List Detection) : List (String × String) :=
  extractWithinClassFrom [] dets

/-! ### `run_pairing_process` -/

/-- Python string `<` (code-point lexicographic). -/
def lexLt : List Char → List Char → Bool
  | [], [] => false
  | [], _ :: _ => true
  | _ :: _, [] => false
  | a :: as, b :: bs => if a = b then lexLt as bs else a.toNat < b.toNat

/-- Python `str.startswith`. -/
def strStartsWith (s t : String) : Bool := (dropLit t.toList s.toList).isSome

/-- Insertion step of a stable `sorted` by a string key. -/
def insertByName (name : α → String) (p : α) : List α → List α
  | [] => [p]
  | q :: qs => if lexLt (name q).toList (name p).toList then q :: insertByName name p qs else p :: q :: qs

/-- Stable `sorted(...)` by a string key. -/
def sortByName (name : α → String) : List α → List α
  | [] => []
  | p :: ps => insertByName name p (sortByName name ps)

/-- The page loop of `run_pairing_process`, with the possibility that
pairing one page fails (an I/O error raised inside
`pair_items_on_page`): returns the pages actually processed, in order,
and the first error if any.  The loop body has no exception handler, so
an error stops the loop. -/
def run_pages_loop {ε : Type} (f : String → Except ε Unit) : List String → List String × Option ε
  | [] => ([], none)
  | p :: ps =>
    match f p with
    | .ok _ => ((p :: (run_pages_loop f ps).1), (run_pages_loop f ps).2)
    | .error e => ([p], some e)

/-- `run_pairing_process` restricted to its page iteration: keep the
directories named `page_*`, sort them, then run the loop. -/
def run_pairing_process_err {ε : Type} (pageDirs : List String) (f : String → Except ε Unit) :
    List String × Option ε :=
  run_pages_loop f (sortByName id (pageDirs.filter (fun d => strStartsWith d "page_")))

/-! ### Filesystem model of `run_pairing_process` (for the restart property)

A filesystem is a list of files, each a path given as its segments; the
document output directory is one root segment.  `shutil.rmtree` on the
output root removes every file under it, and the pairing run then writes
the paired/unpaired tree for each `page_*` subdirectory of the source. -/

def FS := List (List String)

/-- The files `pair_items_on_page` writes for one page. -/
def renderPage (outRoot pageName : String) (res : PairState × List (String × Nat × FP)) : FS :=
  res.1.pairs.flatMap (fun p =>
      [[outRoot, pageName, "paired_" ++ p.itemType ++ "_" ++ toString p.itemIdx, p.itemPath.filename],
       [outRoot, pageName, "paired_" ++ p.itemType ++ "_" ++ toString p.itemIdx, p.capPath.filename]]) ++
    res.2.map (fun u =>
      [outRoot, pageName, "unpaired_" ++ u.1 ++ "_" ++ toString u.2.1, u.2.2.filename])

/-- `run_pairing_process` on the filesystem: delete the output root if it
exists, recreate it, then pair each `page_*` source directory in sorted
order and write the results. -/
def run_pairing_process_fs (threshold : Nat) (outRoot : String)
    (pages : List (String × Listing)) (fs : FS) : FS :=
  let cleared := fs.filter (fun p => !(p.head? == some outRoot))
  cleared ++
    ((sortByName (fun pg => pg.1) (pages.filter (fun pg => strStartsWith pg.1 "page_"))).flatMap
      (fun pg => renderPage outRoot pg.1 (pair_items_on_page threshold pg.2)))

/-- The part of the filesystem below the output root. -/
def underRoot (outRoot : String) (fs : FS) : FS :=
  fs.filter (fun p => p.head? == some outRoot)

/-! ### Spec-side comparison definitions and concrete page fixtures -/

/-- The caption classes that participate in pairing. -/
def capAll : List String := ["figure_caption", "table_caption_above", "table_caption_below"]

/-- The caption candidates of one item's scan, in the exact order the
nested loops of `pair_items_on_page` visit them: caption class list
order, then dictionary-insertion order within each class. -/
def scanList (org : String → List (Nat × FP)) (capTypes : List String) :
    List (String × Nat × FP) :=
  capTypes.flatMap (fun ct => (org ct).map (fun e => (ct, e)))

/-- Ascending insertion by position index. -/
def insertAsc (e : Nat × FP) : List (Nat × FP) → List (Nat × FP)
  | [] => [e]
  | f :: fs => if e.1 ≤ f.1 then e :: f :: fs else f :: insertAsc e fs

/-- Sort a class dictionary by ascending position index. -/
def sortAsc : List (Nat × FP) → List (Nat × FP)
  | [] => []
  | e :: es => insertAsc e (sortAsc es)

/-- Modelled from the spec: the pairing passes with every class
dictionary visited in ascending position-index order (the order the spec
asserts for items and for tie-breaking among captions). -/
def runPassesAscending (threshold : Nat) (listing : Listing) : PairState :=
  runPasses threshold (fun ct => sortAsc (organizeType listing ct))

/-- Scenario page of claim C9: one figure at index 0, captions at
indices 1 and 5. -/
def listingC9 : Listing := fun ct =>
  if ct = "figure" then some ["figure_0_score0.90.jpg"]
  else if ct = "figure_caption" then
    some ["figure_caption_1_score0.90.jpg", "figure_caption_5_score0.90.jpg"]
  else none

/-- Scenario page of claim C3: a table at index 10 whose only caption is
at index 50. -/
def listingC3scenario : Listing := fun ct =>
  if ct = "table" then some ["table_10_score0.90.jpg"]
  else if ct = "table_caption_above" then some ["table_caption_above_50_score0.90.jpg"]
  else none

/-- Witness page: one figure at index 0, one caption at index 1. -/
def listingPair01 : Listing := fun ct =>
  if ct = "figure" then some ["figure_0_score0.50.jpg"]
  else if ct = "figure_caption" then some ["figure_caption_1_score0.50.jpg"]
  else none

/-- Witness page: a single parsable figure file and nothing else. -/
def listingSingle : Listing := fun ct =>
  if ct = "figure" then some ["figure_0_score0.50.jpg"] else none

/-- Counterexample page for claim C1: two parsable figure files whose
position indices collide. -/
def listingCollide : Listing := fun ct =>
  if ct = "figure" then some ["figure_0_score0.50.jpg", "figure_0_score0.60.jpg"] else none

/-- Counterexample page for claim C6: the figure directory lists index 1
before index 0, and a single caption at index 1. -/
def listingC6 : Listing := fun ct =>
  if ct = "figure" then some ["figure_1_score0.50.jpg", "figure_0_score0.50.jpg"]
  else if ct = "figure_caption" then some ["figure_caption_1_score0.50.jpg"]
  else none

/-- A page-pairing action that fails on `page_2` only. -/
def failOnPage2 : String → Except Unit Unit :=
  fun s => if s = "page_2" then .error () else .ok ()

/-- Listings agreeing on all participating classes but not on a fallback
`cls12` directory (used to witness that `cls12` components are inert). -/
def listingWithCls12 : Listing := fun ct =>
  if ct = "cls12" then some ["cls12_0_score0.95.jpg"] else listingPair01 ct

/-! ### Spec-side lexical patterns for the Index Parser -/

/-- The relaxed lexical pattern the source regex actually decides: a
prefix of the filename of shape `[a-zA-Z_]+ '_' \d+ "_score" [\d.]+ ".jpg"`,
with arbitrary trailing characters `r`. -/
def RelaxedMatch (cs : List Char) : Prop :=
  ∃ g1 g2 g3 r,
    cs = g1 ++ '_' :: (g2 ++ ('_' :: 's' :: 'c' :: 'o' :: 'r' :: 'e' ::
      (g3 ++ ('.' :: 'j' :: 'p' :: 'g' :: r)))) ∧
    g1 ≠ [] ∧ (∀ c ∈ g1, isCls1 c = true) ∧
    g2 ≠ [] ∧ (∀ c ∈ g2, isDig c = true) ∧
    g3 ≠ [] ∧ (∀ c ∈ g3, isCls3 c = true)

/-- A decimal, possibly fractional, number: digits, or digits-dot-digits. -/
def DecimalNumber (g : List Char) : Prop :=
  (g ≠ [] ∧ ∀ c ∈ g, isDig c = true) ∨
    ∃ a b, g = a ++ '.' :: b ∧ a ≠ [] ∧ b ≠ [] ∧
      (∀ c ∈ a, isDig c = true) ∧ (∀ c ∈ b, isDig c = true)

/-- The lexical pattern as the claim states it: letters/underscores, an
underscore, a decimal integer, `_score`, a decimal (possibly fractional)
number, and the fixed extension `.jpg` ending the filename. -/
def StrictMatch (cs : List Char) : Prop :=
  ∃ g1 g2 g3,
    cs = g1 ++ '_' :: (g2 ++ ('_' :: 's' :: 'c' :: 'o' :: 'r' :: 'e' ::
      (g3 ++ ['.', 'j', 'p', 'g']))) ∧
    g1 ≠ [] ∧ (∀ c ∈ g1, isCls1 c = true) ∧
    g2 ≠ [] ∧ (∀ c ∈ g2, isDig c = true) ∧
    DecimalNumber g3

/-! ### Generic helper lemmas -/

lemma filter_filter_not (f : α → Bool) (l : List α) :
    (l.filter (fun x => !(f x))).filter f = [] := by
  induction l with
  | nil => rfl
  | cons a l ih =>
    by_cases h : f a = true
    · simp [List.filter, h, ih]
    · simp only [Bool.not_eq_true] at h
      simp [List.filter, h, ih]

/-! ### Claim C8: the output directory is cleared before each run -/

/-- Claim C8: `run_pairing_process` deletes and recreates the document's
output directory before pairing, so the paired/unpaired tree below the
output root after a run depends only on the source pages — no stale file
of a previous run survives, and re-running on unchanged sources
reproduces the identical partition. -/
theorem c8_restart_clears_output (threshold : Nat) (outRoot : String)
    (pages : List (String × Listing)) (fs₁ fs₂ : FS) :
    underRoot outRoot (run_pairing_process_fs threshold outRoot pages fs₁) =
      underRoot outRoot (run_pairing_process_fs threshold outRoot pages fs₂) := by
  simp only [underRoot, run_pairing_process_fs, List.filter_append]
  rw [filter_filter_not, filter_filter_not]

/-! ### Claim C5: a failing page aborts the remaining pages -/

/-- Claim C5 counterexample: with pages `page_1, page_2, page_3` and a
pairing action that raises on `page_2`, the loop stops: `page_3` is never
processed, contradicting the claim that sibling pages after a failure
are still processed. -/
theorem c5_cex_failure_aborts_siblings :
    run_pairing_process_err ["page_1", "page_2", "page_3"] failOnPage2 =
        (["page_1", "page_2"], some ()) ∧
      failOnPage2 "page_2" = .error () ∧
      "page_3" ∉ (run_pairing_process_err ["page_1", "page_2", "page_3"] failOnPage2).1 := by
  exact ⟨by decide, rfl, by decide⟩

/-- Claim C5 (amended): the page loop of `run_pairing_process` has no
per-page exception handler, so an error while pairing one page stops the
loop: the pages before it and the failing page itself are the only ones
processed, and every later sibling page is skipped. -/
theorem c5_failure_stops_loop {ε : Type} (f : String → Except ε Unit)
    (pre : List String) (p : String) (post : List String) (e : ε)
    (hpre : ∀ q ∈ pre, f q = .ok ()) (hp : f p = .error e) :
    run_pages_loop f (pre ++ p :: post) = (pre ++ [p], some e) := by
  induction pre with
  | nil => simp [run_pages_loop, hp]
  | cons q pre ih =>
    have hq : f q = .ok () := hpre q (by simp)
    have ih' := ih (fun r hr => hpre r (by simp [hr]))
    simp [run_pages_loop, hq, ih']

theorem c5_failure_stops_loop_witness :
    run_pages_loop failOnPage2 (["page_1"] ++ "page_2" :: ["page_3"]) =
      (["page_1"] ++ ["page_2"], some ()) := by
  exact c5_failure_stops_loop failOnPage2 ["page_1"] "page_2" ["page_3"] ()
    (by intro q hq; simp at hq; subst hq; rfl) rfl

/-! ### Claim C9: the two-caption scenario -/

/-- Claim C9 counterexample: in the scenario (figure at index 0,
captions at indices 1 and 5, threshold 30) the distance from the figure
to the far caption is `5`, not `4` as the claim states, so the claim's
conjunction is false. -/
theorem c9_cex_distance_is_five :
    ¬((pair_items_on_page 30 listingC9).1.pairs =
        [⟨"figure", 0, ⟨"figure", "figure_0_score0.90.jpg"⟩, "figure_caption", 1,
          ⟨"figure_caption", "figure_caption_1_score0.90.jpg"⟩, 1⟩] ∧
      distance 0 1 = 1 ∧ distance 0 5 = 4) := by
  intro h
  exact absurd h.2.2 (by decide)

/-- Claim C9 (amended): in the scenario the pairing pass commits exactly
one Pair, matching the figure at index 0 with the caption at index 1,
because distance 1 beats distance **5** (not 4). -/
theorem c9_scenario_nearest_caption_wins :
    (pair_items_on_page 30 listingC9).1.pairs =
        [⟨"figure", 0, ⟨"figure", "figure_0_score0.90.jpg"⟩, "figure_caption", 1,
          ⟨"figure_caption", "figure_caption_1_score0.90.jpg"⟩, 1⟩] ∧
      distance 0 1 = 1 ∧ distance 0 5 = 5 := by
  exact ⟨by decide, by decide, by decide⟩

/-! ### Claim C4: crop filenames use the global detection index -/

lemma extractFrom_length (n : Nat) (ds : List Detection) :
    (extractFrom n ds).length = ds.length := by
  induction ds generalizing n with
  | nil => rfl
  | cons d ds ih => simp [extractFrom, ih]

lemma extractFrom_getElem? (ds : List Detection) (n i : Nat) :
    (extractFrom n ds)[i]? =
      ds[i]?.map (fun d => (className d.cls, cropFilename (className d.cls) (n + i) d.score)) := by
  induction ds generalizing n i with
  | nil => simp [extractFrom]
  | cons d ds ih =>
    cases i with
    | zero => simp [extractFrom]
    | succ i =>
      simp only [extractFrom, List.getElem?_cons_succ, ih (n + 1) i]
      have : n + 1 + i = n + (i + 1) := by omega
      rw [this]

/-- Claim C4 counterexample: for detections `figure` then `table`, the
saved table crop is named with the global `enumerate` index (`table_1_…`),
not with its index within the `table` class (`table_0_…`) as the claim
states. -/
theorem c4_cex_global_index :
    extract_and_save_layout_components [⟨3, 90⟩, ⟨5, 80⟩] =
        [("figure", "figure_0_score0.90.jpg"), ("table", "table_1_score0.80.jpg")] ∧
      extract_spec_within_class [⟨3, 90⟩, ⟨5, 80⟩] =
        [("figure", "figure_0_score0.90.jpg"), ("table", "table_0_score0.80.jpg")] ∧
      extract_and_save_layout_components [⟨3, 90⟩, ⟨5, 80⟩] ≠
        extract_spec_within_class [⟨3, 90⟩, ⟨5, 80⟩] := by
  exact ⟨by decide, by decide, by decide⟩

/-- Claim C4 (amended): the persisted crop's filename follows the pattern
`<class_name>_<idx>_score<confidence:.2f>.jpg` where `<idx>` is the
detection's index in the **whole detection sequence** (the `enumerate`
counter), not its index within its class. -/
theorem c4_filename_from_detection_index (dets : List Detection) (i : Nat) (d : Detection)
    (h : dets[i]? = some d) :
    (extract_and_save_layout_components dets)[i]? =
      some (className d.cls, cropFilename (className d.cls) i d.score) := by
  rw [extract_and_save_layout_components, extractFrom_getElem?, h]
  simp

theorem c4_filename_from_detection_index_witness :
    (extract_and_save_layout_components [⟨3, 90⟩, ⟨5, 80⟩])[1]? =
      some (className 5, cropFilename (className 5) 1 80) := by
  exact c4_filename_from_detection_index [⟨3, 90⟩, ⟨5, 80⟩] 1 ⟨5, 80⟩ (by decide)

/-! ### The greedy caption scan: soundness and minimality -/

lemma considerCap_cases (itemIdx : Nat) (used : List (String × Nat)) (capType : String)
    (capIdx : Nat) (capPath : FP) (best : Option Best) :
    considerCap itemIdx used capType capIdx capPath best = best ∨
      (considerCap itemIdx used capType capIdx capPath best =
          some ⟨distance itemIdx capIdx, capType, capIdx, capPath⟩ ∧
        (capType, capIdx) ∉ used) := by
  unfold considerCap
  by_cases hu : (capType, capIdx) ∈ used
  · simp [hu]
  · cases best with
    | none => simp [hu]
    | some b =>
      simp only [if_neg hu]
      by_cases hd : distance itemIdx capIdx < b.diff <;> simp [hd, hu]

lemma scanEntries_sound (itemIdx : Nat) (used : List (String × Nat)) (capType : String) :
    ∀ (entries : List (Nat × FP)) (best : Option Best),
      scanEntries itemIdx used capType entries best = best ∨
        ∃ b, scanEntries itemIdx used capType entries best = some b ∧
          b.capType = capType ∧ (b.capIdx, b.capPath) ∈ entries ∧
          (capType, b.capIdx) ∉ used ∧ b.diff = distance itemIdx b.capIdx := by
  intro entries
  induction entries with
  | nil => intro best; left; rfl
  | cons e rest ih =>
    intro best
    obtain ⟨k, p⟩ := e
    simp only [scanEntries]
    rcases ih (considerCap itemIdx used capType k p best) with h | ⟨b, hb, h1, h2, h3, h4⟩
    · rw [h]
      rcases considerCap_cases itemIdx used capType k p best with hc | ⟨hc, hu⟩
      · left; exact hc
      · right
        exact ⟨_, hc, rfl, by simp, hu, rfl⟩
    · right
      exact ⟨b, hb, h1, by simp [h2], h3, h4⟩

lemma scanEntries_mono (itemIdx : Nat) (used : List (String × Nat)) (capType : String) :
    ∀ (entries : List (Nat × FP)) (b0 : Best),
      ∃ b, scanEntries itemIdx used capType entries (some b0) = some b ∧ b.diff ≤ b0.diff := by
  intro entries
  induction entries with
  | nil => intro b0; exact ⟨b0, rfl, le_refl _⟩
  | cons e rest ih =>
    intro b0
    obtain ⟨k, p⟩ := e
    simp only [scanEntries]
    have hstep : ∃ b1, considerCap itemIdx used capType k p (some b0) = some b1 ∧ b1.diff ≤ b0.diff := by
      unfold considerCap
      by_cases hu : (capType, k) ∈ used
      · exact ⟨b0, by simp [hu], le_refl _⟩
      · by_cases hd : distance itemIdx k < b0.diff
        · exact ⟨⟨distance itemIdx k, capType, k, p⟩, by simp [hu, hd], le_of_lt hd⟩
        · exact ⟨b0, by simp [hu, hd], le_refl _⟩
    obtain ⟨b1, hb1, hle1⟩ := hstep
    rw [hb1]
    obtain ⟨b, hb, hle⟩ := ih b1
    exact ⟨b, hb, le_trans hle hle1⟩

lemma scanEntries_coverage (itemIdx : Nat) (used : List (String × Nat)) (capType : String) :
    ∀ (entries : List (Nat × FP)) (best : Option Best) (k : Nat) (p : FP),
      (k, p) ∈ entries → (capType, k) ∉ used →
      ∃ b, scanEntries itemIdx used capType entries best = some b ∧
        b.diff ≤ distance itemIdx k := by
  intro entries
  induction entries with
  | nil => intro best k p h; exact absurd h (List.not_mem_nil _)
  | cons e rest ih =>
    intro best k p hmem hu
    obtain ⟨k', p'⟩ := e
    simp only [scanEntries]
    rcases List.mem_cons.mp hmem with hhead | htail
    · rw [Prod.mk.injEq] at hhead
      obtain ⟨hk, hp⟩ := hhead
      subst hk; subst hp
      have hstep : ∃ b1, considerCap itemIdx used capType k p best = some b1 ∧
          b1.diff ≤ distance itemIdx k := by
        unfold considerCap
        cases best with
        | none => exact ⟨⟨distance itemIdx k, capType, k, p⟩, by simp [hu], le_refl _⟩
        | some b0 =>
          by_cases hd : distance itemIdx k < b0.diff
          · exact ⟨⟨distance itemIdx k, capType, k, p⟩, by simp [hu, hd], le_refl _⟩
          · exact ⟨b0, by simp [hu, hd], le_of_not_lt hd⟩
      obtain ⟨b1, hb1, hle1⟩ := hstep
      rw [hb1]
      obtain ⟨b, hb, hle⟩ := scanEntries_mono itemIdx used capType rest b1
      exact ⟨b, hb, le_trans hle hle1⟩
    · exact ih _ k p htail hu

lemma scanCapTypes_sound (org : String → List (Nat × FP)) (itemIdx : Nat)
    (used : List (String × Nat)) :
    ∀ (cts : List String) (best : Option Best),
      scanCapTypes org itemIdx used cts best = best ∨
        ∃ b, scanCapTypes org itemIdx used cts best = some b ∧
          b.capType ∈ cts ∧ (b.capIdx, b.capPath) ∈ org b.capType ∧
          (b.capType, b.capIdx) ∉ used ∧ b.diff = distance itemIdx b.capIdx := by
  intro cts
  induction cts with
  | nil => intro best; left; rfl
  | cons ct cts ih =>
    intro best
    simp only [scanCapTypes]
    rcases ih (scanEntries itemIdx used ct (org ct) best) with h | ⟨b, hb, h1, h2, h3, h4⟩
    · rw [h]
      rcases scanEntries_sound itemIdx used ct (org ct) best with hc | ⟨b, hb, h1, h2, h3, h4⟩
      · left; exact hc
      · right; exact ⟨b, hb, by simp [h1], h1 ▸ h2, h1 ▸ h3, h4⟩
    · right; exact ⟨b, hb, by simp [h1], h2, h3, h4⟩

lemma scanCapTypes_mono (org : String → List (Nat × FP)) (itemIdx : Nat)
    (used : List (String × Nat)) :
    ∀ (cts : List String) (b0 : Best),
      ∃ b, scanCapTypes org itemIdx used cts (some b0) = some b ∧ b.diff ≤ b0.diff := by
  intro cts
  induction cts with
  | nil => intro b0; exact ⟨b0, rfl, le_refl _⟩
  | cons ct cts ih =>
    intro b0
    simp only [scanCapTypes]
    obtain ⟨b1, hb1, hle1⟩ := scanEntries_mono itemIdx used ct (org ct) b0
    rw [hb1]
    obtain ⟨b, hb, hle⟩ := ih b1
    exact ⟨b, hb, le_trans hle hle1⟩

lemma scanCapTypes_coverage (org : String → List (Nat × FP)) (itemIdx : Nat)
    (used : List (String × Nat)) :
    ∀ (cts : List String) (best : Option Best) (ct : String) (k : Nat) (p : FP),
      ct ∈ cts → (k, p) ∈ org ct → (ct, k) ∉ used →
      ∃ b, scanCapTypes org itemIdx used cts best = some b ∧
        b.diff ≤ distance itemIdx k := by
  intro cts
  induction cts with
  | nil => intro best ct k p h; exact absurd h (List.not_mem_nil _)
  | cons ct' cts ih =>
    intro best ct k p hct hmem hu
    simp only [scanCapTypes]
    rcases List.mem_cons.mp hct with hhead | htail
    · subst hhead
      obtain ⟨b1, hb1, hle1⟩ := scanEntries_coverage itemIdx used ct (org ct) best k p hmem hu
      rw [hb1]
      obtain ⟨b, hb, hle⟩ := scanCapTypes_mono org itemIdx used cts b1
      exact ⟨b, hb, le_trans hle hle1⟩
    · exact ih _ ct k p htail hmem hu

/-- `best_match` returns an unconsumed caption of an allowed class at its
recorded distance. -/
lemma bestCaption_sound {org : String → List (Nat × FP)} {itemIdx : Nat}
    {used : List (String × Nat)} {capTypes : List String} {b : Best}
    (h : bestCaption org used itemIdx capTypes = some b) :
    b.capType ∈ capTypes ∧ (b.capIdx, b.capPath) ∈ org b.capType ∧
      (b.capType, b.capIdx) ∉ used ∧ b.diff = distance itemIdx b.capIdx := by
  rcases scanCapTypes_sound org itemIdx used capTypes none with hc | ⟨b', hb', h1, h2, h3, h4⟩
  · rw [bestCaption] at h; rw [hc] at h; exact absurd h (by simp)
  · rw [bestCaption] at h; rw [hb'] at h
    obtain rfl : b' = b := by injection h
    exact ⟨h1, h2, h3, h4⟩

/-- `best_match` minimizes the distance over all unconsumed captions of
the allowed classes. -/
lemma bestCaption_min {org : String → List (Nat × FP)} {itemIdx : Nat}
    {used : List (String × Nat)} {capTypes : List String} {b : Best}
    (h : bestCaption org used itemIdx capTypes = some b) :
    ∀ ct ∈ capTypes, ∀ k p, (k, p) ∈ org ct → (ct, k) ∉ used →
      b.diff ≤ distance itemIdx k := by
  intro ct hct k p hmem hu
  obtain ⟨b', hb', hle⟩ := scanCapTypes_coverage org itemIdx used capTypes none ct k p hct hmem hu
  rw [bestCaption] at h; rw [hb'] at h
  obtain rfl : b' = b := by injection h
  exact hle

/-- Full characterization of one class scan: the result either is the
untouched initial best, with no candidate of this class strictly beating
it; or it is the **first-encountered** available candidate achieving the
scan's minimum: every available candidate before it is strictly farther
(the code updates only on strict `<`), every one after it is no closer,
and it strictly beats the initial best. -/
lemma scanEntries_first (itemIdx : Nat) (used : List (String × Nat)) (capType : String) :
    ∀ (entries : List (Nat × FP)) (best : Option Best) (b : Best),
      scanEntries itemIdx used capType entries best = some b →
      (best = some b ∧
        ∀ e ∈ entries, (capType, e.1) ∉ used → b.diff ≤ distance itemIdx e.1) ∨
      (∃ pre e₀ post, entries = pre ++ e₀ :: post ∧ (capType, e₀.1) ∉ used ∧
        b = ⟨distance itemIdx e₀.1, capType, e₀.1, e₀.2⟩ ∧
        (∀ e ∈ pre, (capType, e.1) ∉ used → b.diff < distance itemIdx e.1) ∧
        (∀ b₀, best = some b₀ → b.diff < b₀.diff) ∧
        (∀ e ∈ post, (capType, e.1) ∉ used → b.diff ≤ distance itemIdx e.1)) := by
  intro entries
  induction entries with
  | nil =>
    intro best b h
    exact Or.inl ⟨h, fun e he => absurd he (List.not_mem_nil _)⟩
  | cons e rest ih =>
    intro best b h
    obtain ⟨k, p⟩ := e
    rw [scanEntries] at h
    by_cases hu : (capType, k) ∈ used
    · rw [show considerCap itemIdx used capType k p best = best from by
        simp [considerCap, hu]] at h
      rcases ih best b h with ⟨hb', hbound⟩ | ⟨pre, e₀, post, hsplit, he₀, hbdef, hpre, hinit, hpost⟩
      · refine Or.inl ⟨hb', ?_⟩
        intro e he hav
        rcases List.mem_cons.mp he with rfl | htail
        · exact absurd hu hav
        · exact hbound e htail hav
      · refine Or.inr ⟨(k, p) :: pre, e₀, post, by simp [hsplit], he₀, hbdef, ?_, hinit, hpost⟩
        intro e he hav
        rcases List.mem_cons.mp he with rfl | htail
        · exact absurd hu hav
        · exact hpre e htail hav
    · cases best with
      | none =>
        rw [show considerCap itemIdx used capType k p none =
            some ⟨distance itemIdx k, capType, k, p⟩ from by simp [considerCap, hu]] at h
        rcases ih _ b h with ⟨hb', hbound⟩ | ⟨pre, e₀, post, hsplit, he₀, hbdef, hpre, hinit, hpost⟩
        · have hbeq : b = ⟨distance itemIdx k, capType, k, p⟩ := by
            injection hb' with h1
            exact h1.symm
          refine Or.inr ⟨[], (k, p), rest, rfl, hu, hbeq, ?_, ?_, hbound⟩
          · intro e he; exact absurd he (List.not_mem_nil _)
          · intro b₀ h₀; exact absurd h₀ (by simp)
        · refine Or.inr ⟨(k, p) :: pre, e₀, post, by simp [hsplit], he₀, hbdef, ?_, ?_, hpost⟩
          · intro e he hav
            rcases List.mem_cons.mp he with rfl | htail
            · exact hinit ⟨distance itemIdx k, capType, k, p⟩ rfl
            · exact hpre e htail hav
          · intro b₀ h₀; exact absurd h₀ (by simp)
      | some b₀ =>
        by_cases hd : distance itemIdx k < b₀.diff
        · rw [show considerCap itemIdx used capType k p (some b₀) =
              some ⟨distance itemIdx k, capType, k, p⟩ from by simp [considerCap, hu, hd]] at h
          rcases ih _ b h with ⟨hb', hbound⟩ |
            ⟨pre, e₀, post, hsplit, he₀, hbdef, hpre, hinit, hpost⟩
          · have hbeq : b = ⟨distance itemIdx k, capType, k, p⟩ := by
              injection hb' with h1
              exact h1.symm
            refine Or.inr ⟨[], (k, p), rest, rfl, hu, hbeq, ?_, ?_, hbound⟩
            · intro e he; exact absurd he (List.not_mem_nil _)
            · intro b₁ h₁
              obtain rfl : b₀ = b₁ := by injection h₁
              rw [hbeq]
              exact hd
          · refine Or.inr ⟨(k, p) :: pre, e₀, post, by simp [hsplit], he₀, hbdef, ?_, ?_, hpost⟩
            · intro e he hav
              rcases List.mem_cons.mp he with rfl | htail
              · exact hinit ⟨distance itemIdx k, capType, k, p⟩ rfl
              · exact hpre e htail hav
            · intro b₁ h₁
              obtain rfl : b₀ = b₁ := by injection h₁
              exact lt_trans (hinit ⟨distance itemIdx k, capType, k, p⟩ rfl) hd
        · rw [show considerCap itemIdx used capType k p (some b₀) = some b₀ from by
            simp [considerCap, hu, hd]] at h
          rcases ih _ b h with ⟨hb', hbound⟩ |
            ⟨pre, e₀, post, hsplit, he₀, hbdef, hpre, hinit, hpost⟩
          · obtain rfl : b₀ = b := by injection hb'
            refine Or.inl ⟨rfl, ?_⟩
            intro e he hav
            rcases List.mem_cons.mp he with rfl | htail
            · exact le_of_not_lt hd
            · exact hbound e htail hav
          · refine Or.inr ⟨(k, p) :: pre, e₀, post, by simp [hsplit], he₀, hbdef, ?_, ?_, hpost⟩
            · intro e he hav
              rcases List.mem_cons.mp he with rfl | htail
              · exact lt_of_lt_of_le (hinit b₀ rfl) (le_of_not_lt hd)
              · exact hpre e htail hav
            · intro b₁ h₁
              obtain rfl : b₀ = b₁ := by injection h₁
              exact hinit b₀ rfl

/-- Lift of `scanEntries_first` to the full scan over all allowed caption
classes, phrased on the flattened candidate list in scan order. -/
lemma scanCapTypes_first (org : String → List (Nat × FP)) (itemIdx : Nat)
    (used : List (String × Nat)) :
    ∀ (cts : List String) (best : Option Best) (b : Best),
      scanCapTypes org itemIdx used cts best = some b →
      (best = some b ∧
        ∀ x ∈ scanList org cts, (x.1, x.2.1) ∉ used → b.diff ≤ distance itemIdx x.2.1) ∨
      (∃ pre post, scanList org cts = pre ++ (b.capType, b.capIdx, b.capPath) :: post ∧
        (b.capType, b.capIdx) ∉ used ∧ b.diff = distance itemIdx b.capIdx ∧
        (∀ x ∈ pre, (x.1, x.2.1) ∉ used → b.diff < distance itemIdx x.2.1) ∧
        (∀ b₀, best = some b₀ → b.diff < b₀.diff) ∧
        (∀ x ∈ post, (x.1, x.2.1) ∉ used → b.diff ≤ distance itemIdx x.2.1)) := by
  intro cts
  induction cts with
  | nil =>
    intro best b h
    exact Or.inl ⟨h, fun x hx => absurd hx (List.not_mem_nil _)⟩
  | cons ct cts ih =>
    intro best b h
    rw [scanCapTypes] at h
    have hslist : scanList org (ct :: cts) =
        (org ct).map (fun e => (ct, e)) ++ scanList org cts := by
      rw [scanList, List.flatMap_cons]
      rfl
    rcases ih _ b h with ⟨hmid, hbound'⟩ |
      ⟨pre, post, hsplit, hav, hdeq, hpre, hinit, hpost⟩
    · rcases scanEntries_first itemIdx used ct (org ct) best b hmid with ⟨hb0, hbound0⟩ |
        ⟨pre, e₀, post, hsplit, he₀, hbdef, hpre, hinit0, hpost⟩
      · refine Or.inl ⟨hb0, ?_⟩
        intro x hx hav
        rw [hslist] at hx
        rcases List.mem_append.mp hx with hx1 | hx1
        · obtain ⟨e, he, rfl⟩ := List.mem_map.mp hx1
          exact hbound0 e he hav
        · exact hbound' x hx1 hav
      · subst hbdef
        refine Or.inr ⟨pre.map (fun e => (ct, e)),
          post.map (fun e => (ct, e)) ++ scanList org cts, ?_, he₀, rfl, ?_, hinit0, ?_⟩
        · rw [hslist, hsplit]
          simp
        · intro x hx hav
          obtain ⟨e, he, rfl⟩ := List.mem_map.mp hx
          exact hpre e he hav
        · intro x hx hav
          rcases List.mem_append.mp hx with hx1 | hx1
          · obtain ⟨e, he, rfl⟩ := List.mem_map.mp hx1
            exact hpost e he hav
          · exact hbound' x hx1 hav
    · refine Or.inr ⟨(org ct).map (fun e => (ct, e)) ++ pre, post, ?_, hav, hdeq, ?_, ?_, hpost⟩
      · rw [hslist, hsplit, List.append_assoc]
      · intro x hx hav'
        rcases List.mem_append.mp hx with hx1 | hx1
        · obtain ⟨e, he, rfl⟩ := List.mem_map.mp hx1
          obtain ⟨m, hm, hmle⟩ := scanEntries_coverage itemIdx used ct (org ct) best e.1 e.2
            (by simpa using he) hav'
          exact lt_of_lt_of_le (hinit m hm) hmle
        · exact hpre x hx1 hav'
      · intro b₀ h₀
        obtain ⟨m, hm, hmle⟩ := scanEntries_mono itemIdx used ct (org ct) b₀
        rw [← h₀] at hm
        exact lt_of_lt_of_le (hinit m hm) hmle

/-- `best_match` is the first-encountered available caption achieving the
minimum distance over the scan list. -/
lemma bestCaption_first {org : String → List (Nat × FP)} {itemIdx : Nat}
    {used : List (String × Nat)} {capTypes : List String} {b : Best}
    (h : bestCaption org used itemIdx capTypes = some b) :
    ∃ pre post, scanList org capTypes = pre ++ (b.capType, b.capIdx, b.capPath) :: post ∧
      (∀ x ∈ pre, (x.1, x.2.1) ∉ used → b.diff < distance itemIdx x.2.1) ∧
      (∀ x ∈ post, (x.1, x.2.1) ∉ used → b.diff ≤ distance itemIdx x.2.1) := by
  rcases scanCapTypes_first org itemIdx used capTypes none b h with ⟨h0, _⟩ |
    ⟨pre, post, hsplit, _, _, hpre, _, hpost⟩
  · exact absurd h0 (by simp)
  · exact ⟨pre, post, hsplit, hpre, hpost⟩

/-- The item loop commits pairs in item-visiting order: the committed
pairs extend the incoming state in order, and their items form an
order-preserving subsequence of the scanned item dictionary. -/
lemma processItems_pairs_order {threshold : Nat} {org : String → List (Nat × FP)}
    {itemType : String} {capTypes : List String} :
    ∀ (items : List (Nat × FP)) (st : PairState),
      ∃ new, (processItems threshold org itemType capTypes items st).pairs = st.pairs ++ new ∧
        (∀ p ∈ new, p.itemType = itemType) ∧
        List.Sublist (new.map (fun p => (p.itemIdx, p.itemPath))) items := by
  intro items
  induction items with
  | nil =>
    intro st
    exact ⟨[], by rw [processItems, List.append_nil], fun p hp => absurd hp (List.not_mem_nil _),
      List.nil_sublist _⟩
  | cons e rest ih =>
    intro st
    obtain ⟨itemIdx, itemPath⟩ := e
    rcases hb : bestCaption org st.used itemIdx capTypes with _ | b
    · simp only [processItems, hb]
      obtain ⟨new, h1, h2, h3⟩ := ih st
      exact ⟨new, h1, h2, h3.cons _⟩
    · simp only [processItems, hb]
      by_cases hth : b.diff ≤ threshold
      · rw [if_pos hth]
        obtain ⟨new, h1, h2, h3⟩ := ih
          { pairs := st.pairs ++
              [⟨itemType, itemIdx, itemPath, b.capType, b.capIdx, b.capPath, b.diff⟩]
            pairedFiles := st.pairedFiles ++ [itemPath, b.capPath]
            used := st.used ++ [(b.capType, b.capIdx)] }
        refine ⟨⟨itemType, itemIdx, itemPath, b.capType, b.capIdx, b.capPath, b.diff⟩ :: new,
          ?_, ?_, ?_⟩
        · rw [h1]
          simp
        · intro p hp
          rcases List.mem_cons.mp hp with rfl | htail
          · rfl
          · exact h2 p htail
        · exact h3.cons₂ _
      · rw [if_neg hth]
        obtain ⟨new, h1, h2, h3⟩ := ih st
        exact ⟨new, h1, h2, h3.cons _⟩

/-- Claim C6 (amended): the committed pairs follow the item-visiting
order — dictionary-insertion (directory-listing) order within the figure
pass, then within the table pass, as an order-preserving subsequence of
each item dictionary — and for each item `best_match` selects the
**first-encountered** unconsumed caption achieving the minimum distance
over the scan (caption class list order, then caption dictionary order):
every available candidate earlier in the scan is **strictly** farther
(the code improves only on strict `<`), and every later one is no
closer. -/
theorem c6_greedy_scan_order :
    (∀ (threshold : Nat) (org : String → List (Nat × FP)),
      ∃ figPairs tabPairs,
        (runPasses threshold org).pairs = figPairs ++ tabPairs ∧
        (∀ p ∈ figPairs, p.itemType = "figure") ∧
        List.Sublist (figPairs.map (fun p => (p.itemIdx, p.itemPath))) ( org "figure") ∧
        (∀ p ∈ tabPairs, p.itemType = "table") ∧
        List.Sublist (tabPairs.map (fun p => (p.itemIdx, p.itemPath))) ( org "table")) ∧
    (∀ (org : String → List (Nat × FP)) (used : List (String × Nat)) (itemIdx : Nat)
        (capTypes : List String) (b : Best),
      bestCaption org used itemIdx capTypes = some b →
      (b.capType ∈ capTypes ∧ (b.capIdx, b.capPath) ∈ org b.capType ∧
          (b.capType, b.capIdx) ∉ used ∧ b.diff = distance itemIdx b.capIdx) ∧
        (∀ ct ∈ capTypes, ∀ k p, (k, p) ∈ org ct → (ct, k) ∉ used →
          b.diff ≤ distance itemIdx k) ∧
        ∃ pre post,
          scanList org capTypes = pre ++ (b.capType, b.capIdx, b.capPath) :: post ∧
          (∀ x ∈ pre, (x.1, x.2.1) ∉ used → b.diff < distance itemIdx x.2.1) ∧
          (∀ x ∈ post, (x.1, x.2.1) ∉ used → b.diff ≤ distance itemIdx x.2.1)) := by
  constructor
  · intro threshold org
    obtain ⟨figPairs, hf1, hf2, hf3⟩ :=
      @processItems_pairs_order threshold org "figure" ["figure_caption"] (org "figure")
        ⟨[], [], []⟩
    obtain ⟨tabPairs, ht1, ht2, ht3⟩ :=
      @processItems_pairs_order threshold org "table" ["table_caption_above", "table_caption_below"]
        (org "table")
        (processItems threshold org "figure" ["figure_caption"] (org "figure") ⟨[], [], []⟩)
    refine ⟨figPairs, tabPairs, ?_, hf2, hf3, ht2, ht3⟩
    rw [runPasses, ht1, hf1]
    simp
  · intro org used itemIdx capTypes b h
    exact ⟨bestCaption_sound h, bestCaption_min h, bestCaption_first h⟩

theorem c6_greedy_scan_order_witness :
    (∃ figPairs tabPairs,
        (runPasses 30 (organizeType listingPair01)).pairs = figPairs ++ tabPairs ∧
        (∀ p ∈ figPairs, p.itemType = "figure") ∧
        List.Sublist (figPairs.map (fun p => (p.itemIdx, p.itemPath))) (organizeType listingPair01 "figure") ∧
        (∀ p ∈ tabPairs, p.itemType = "table") ∧
        List.Sublist (tabPairs.map (fun p => (p.itemIdx, p.itemPath))) (organizeType listingPair01 "table")) ∧
      (((Best.mk 1 "figure_caption" 1
              ⟨"figure_caption", "figure_caption_1_score0.50.jpg"⟩).capType ∈ ["figure_caption"] ∧
          ((Best.mk 1 "figure_caption" 1
                ⟨"figure_caption", "figure_caption_1_score0.50.jpg"⟩).capIdx,
              (Best.mk 1 "figure_caption" 1
                  ⟨"figure_caption", "figure_caption_1_score0.50.jpg"⟩).capPath) ∈
            organizeType listingPair01
              (Best.mk 1 "figure_caption" 1
                  ⟨"figure_caption", "figure_caption_1_score0.50.jpg"⟩).capType ∧
          ((Best.mk 1 "figure_caption" 1
                ⟨"figure_caption", "figure_caption_1_score0.50.jpg"⟩).capType,
              (Best.mk 1 "figure_caption" 1
                  ⟨"figure_caption", "figure_caption_1_score0.50.jpg"⟩).capIdx) ∉
            ([] : List (String × Nat)) ∧
          (Best.mk 1 "figure_caption" 1
              ⟨"figure_caption", "figure_caption_1_score0.50.jpg"⟩).diff =
            distance 0 (Best.mk 1 "figure_caption" 1
                ⟨"figure_caption", "figure_caption_1_score0.50.jpg"⟩).capIdx) ∧
        (∀ ct ∈ ["figure_caption"], ∀ k p, (k, p) ∈ organizeType listingPair01 ct →
          (ct, k) ∉ ([] : List (String × Nat)) →
          (Best.mk 1 "figure_caption" 1
              ⟨"figure_caption", "figure_caption_1_score0.50.jpg"⟩).diff ≤ distance 0 k) ∧
        ∃ pre post,
          scanList (organizeType listingPair01) ["figure_caption"] =
            pre ++ ((Best.mk 1 "figure_caption" 1
                ⟨"figure_caption", "figure_caption_1_score0.50.jpg"⟩).capType,
              (Best.mk 1 "figure_caption" 1
                  ⟨"figure_caption", "figure_caption_1_score0.50.jpg"⟩).capIdx,
              (Best.mk 1 "figure_caption" 1
                  ⟨"figure_caption", "figure_caption_1_score0.50.jpg"⟩).capPath) :: post ∧
          (∀ x ∈ pre, (x.1, x.2.1) ∉ ([] : List (String × Nat)) →
            (Best.mk 1 "figure_caption" 1
                ⟨"figure_caption", "figure_caption_1_score0.50.jpg"⟩).diff <
              distance 0 x.2.1) ∧
          (∀ x ∈ post, (x.1, x.2.1) ∉ ([] : List (String × Nat)) →
            (Best.mk 1 "figure_caption" 1
                ⟨"figure_caption", "figure_caption_1_score0.50.jpg"⟩).diff ≤
              distance 0 x.2.1)) := by
  exact ⟨c6_greedy_scan_order.1 30 (organizeType listingPair01),
    c6_greedy_scan_order.2 (organizeType listingPair01) [] 0 ["figure_caption"]
      (Best.mk 1 "figure_caption" 1 ⟨"figure_caption", "figure_caption_1_score0.50.jpg"⟩)
      (by decide)⟩

/-- Claim C6 counterexample: on a page whose figure directory lists index
1 before index 0 with a single caption at index 1, the code pairs the
figure at index 1 (dictionary order), while visiting items in ascending
position-index order as the claim states would pair the figure at
index 0.  The two runs produce different pair sets. -/
theorem c6_cex_items_not_visited_in_index_order :
    (pair_items_on_page 30 listingC6).1.pairs.map (fun p => (p.itemIdx, p.capIdx)) = [(1, 1)] ∧
      (runPassesAscending 30 listingC6).pairs.map (fun p => (p.itemIdx, p.capIdx)) = [(0, 1)] ∧
      (pair_items_on_page 30 listingC6).1.pairs ≠ (runPassesAscending 30 listingC6).pairs := by
  exact ⟨by decide, by decide, by decide⟩

/-! ### The organize phase -/

lemma dictInsert_self (K : Nat) (V : α) (l : List (Nat × α)) : (K, V) ∈ dictInsert K V l := by
  induction l with
  | nil => simp [dictInsert]
  | cons e rest ih =>
    obtain ⟨a, b⟩ := e
    by_cases h : K = a <;> simp [dictInsert, h, ih]

lemma dictInsert_mem {K : Nat} {V : α} {l : List (Nat × α)} {k : Nat} {v : α}
    (h : (k, v) ∈ dictInsert K V l) : (k = K ∧ v = V) ∨ (k, v) ∈ l := by
  induction l with
  | nil =>
    simp only [dictInsert, List.mem_singleton, Prod.mk.injEq] at h
    exact Or.inl h
  | cons e rest ih =>
    obtain ⟨a, b⟩ := e
    by_cases hKa : K = a
    · rw [dictInsert, if_pos hKa] at h
      rcases List.mem_cons.mp h with h1 | h1
      · rw [Prod.mk.injEq] at h1; exact Or.inl h1
      · exact Or.inr (List.mem_cons_of_mem _ h1)
    · rw [dictInsert, if_neg hKa] at h
      rcases List.mem_cons.mp h with h1 | h1
      · exact Or.inr (List.mem_cons.mpr (Or.inl h1))
      · rcases ih h1 with h2 | h2
        · exact Or.inl h2
        · exact Or.inr (List.mem_cons_of_mem _ h2)

lemma dictInsert_mem_of_ne {K : Nat} {V : α} {l : List (Nat × α)} {k : Nat} {v : α}
    (hne : k ≠ K) (h : (k, v) ∈ l) : (k, v) ∈ dictInsert K V l := by
  induction l with
  | nil => exact absurd h (List.not_mem_nil _)
  | cons e rest ih =>
    obtain ⟨a, b⟩ := e
    by_cases hKa : K = a
    · rw [dictInsert, if_pos hKa]
      rcases List.mem_cons.mp h with h1 | h1
      · rw [Prod.mk.injEq] at h1
        exact absurd (h1.1.trans hKa.symm) hne
      · exact List.mem_cons_of_mem _ h1
    · rw [dictInsert, if_neg hKa]
      rcases List.mem_cons.mp h with h1 | h1
      · exact List.mem_cons.mpr (Or.inl h1)
      · exact List.mem_cons_of_mem _ (ih h1)

lemma organizeFiles_sound {ct : String} :
    ∀ (files : List String) (d : List (Nat × FP)) (k : Nat) (fp : FP),
      (k, fp) ∈ organizeFiles ct files d →
      (k, fp) ∈ d ∨
        (fp.compType = ct ∧ fp.filename ∈ files ∧
          ∃ c, parse_filename fp.filename = some (c, k)) := by
  intro files
  induction files with
  | nil => intro d k fp h; exact Or.inl h
  | cons fn fns ih =>
    intro d k fp h
    rw [organizeFiles] at h
    rcases hp : parse_filename fn with _ | ⟨c, idx⟩
    · rw [hp] at h
      rcases ih d k fp h with h1 | ⟨h1, h2, h3⟩
      · exact Or.inl h1
      · exact Or.inr ⟨h1, List.mem_cons_of_mem _ h2, h3⟩
    · rw [hp] at h
      rcases ih _ k fp h with h1 | ⟨h1, h2, h3⟩
      · rcases dictInsert_mem h1 with ⟨hk, hv⟩ | h2
        · subst hk; subst hv
          exact Or.inr ⟨rfl, by simp, c, hp⟩
        · exact Or.inl h2
      · exact Or.inr ⟨h1, List.mem_cons_of_mem _ h2, h3⟩

lemma organizeType_sound {listing : Listing} {ct : String} {k : Nat} {fp : FP}
    (h : (k, fp) ∈ organizeType listing ct) :
    fp.compType = ct ∧
      (∃ files, listing ct = some files ∧ fp.filename ∈ files) ∧
      ∃ c, parse_filename fp.filename = some (c, k) := by
  rw [organizeType] at h
  rcases hl : listing ct with _ | files
  · rw [hl] at h; exact absurd h (List.not_mem_nil _)
  · rw [hl] at h
    rcases organizeFiles_sound files [] k fp h with h1 | ⟨h1, h2, h3⟩
    · exact absurd h1 (List.not_mem_nil _)
    · exact ⟨h1, ⟨files, rfl, h2⟩, h3⟩

lemma organizeFiles_complete {ct : String} :
    ∀ (files : List String) (d : List (Nat × FP)) (fn : String) (c : String) (i : Nat),
      parse_filename fn = some (c, i) →
      (∀ fn' c', fn' ∈ files → parse_filename fn' = some (c', i) → fn' = fn) →
      (fn ∈ files ∨ (i, (⟨ct, fn⟩ : FP)) ∈ d) →
      (i, (⟨ct, fn⟩ : FP)) ∈ organizeFiles ct files d := by
  intro files
  induction files with
  | nil =>
    intro d fn c i _ _ h
    rcases h with h | h
    · exact absurd h (List.not_mem_nil _)
    · exact h
  | cons fh fns ih =>
    intro d fn c i hp hinj h
    rw [organizeFiles]
    have hinj' : ∀ fn' c', fn' ∈ fns → parse_filename fn' = some (c', i) → fn' = fn :=
      fun fn' c' h1 h2 => hinj fn' c' (List.mem_cons_of_mem _ h1) h2
    rcases h with hmem | hd
    · rcases List.mem_cons.mp hmem with rfl | htail
      · rw [hp]
        exact ih _ fn c i hp hinj' (Or.inr (dictInsert_self _ _ _))
      · rcases hph : parse_filename fh with _ | ⟨c', idx⟩ <;>
          exact ih _ fn c i hp hinj' (Or.inl htail)
    · rcases hph : parse_filename fh with _ | ⟨c', idx⟩
      · exact ih _ fn c i hp hinj' (Or.inr hd)
      · by_cases hidx : idx = i
        · have hfh : fh = fn := hinj fh c' (by simp) (by rw [hidx] at hph; exact hph)
          apply ih _ fn c i hp hinj'
          right
          rw [hidx, hfh]
          exact dictInsert_self _ _ _
        · exact ih _ fn c i hp hinj'
            (Or.inr (dictInsert_mem_of_ne (fun hh => hidx hh.symm) hd))

lemma organizeType_complete {listing : Listing} {ct : String} {files : List String}
    {fn c : String} {i : Nat}
    (hl : listing ct = some files) (hmem : fn ∈ files)
    (hp : parse_filename fn = some (c, i))
    (hinj : ∀ fn' c', fn' ∈ files → parse_filename fn' = some (c', i) → fn' = fn) :
    (i, (⟨ct, fn⟩ : FP)) ∈ organizeType listing ct := by
  rw [organizeType, hl]
  exact organizeFiles_complete files [] fn c i hp hinj (Or.inl hmem)

/-! ### Invariants of the pairing passes -/

/-- Facts preserved by the item loops over a fixed `org`. -/
structure PassInv (threshold : Nat) (org : String → List (Nat × FP)) (st : PairState) : Prop where
  item_mem : ∀ p ∈ st.pairs,
    (p.itemType = "figure" ∨ p.itemType = "table") ∧ (p.itemIdx, p.itemPath) ∈ org p.itemType
  cap_mem : ∀ p ∈ st.pairs, p.capType ∈ capAll ∧ (p.capIdx, p.capPath) ∈ org p.capType
  diff_eq : ∀ p ∈ st.pairs, p.diff = distance p.itemIdx p.capIdx ∧ p.diff ≤ threshold
  cap_used : ∀ p ∈ st.pairs, (p.capType, p.capIdx) ∈ st.used
  caps_nodup : st.pairs.Pairwise (fun p q => ¬(p.capType = q.capType ∧ p.capIdx = q.capIdx))
  files_src : ∀ fp ∈ st.pairedFiles, ∃ p, p ∈ st.pairs ∧ (fp = p.itemPath ∨ fp = p.capPath)

lemma processItems_inv {threshold : Nat} {org : String → List (Nat × FP)}
    {itemType : String} {capTypes : List String}
    (hit : itemType = "figure" ∨ itemType = "table")
    (hcap : ∀ ct ∈ capTypes, ct ∈ capAll) :
    ∀ (items : List (Nat × FP)) (st : PairState),
      (∀ e ∈ items, e ∈ org itemType) → PassInv threshold org st →
      PassInv threshold org (processItems threshold org itemType capTypes items st) := by
  intro items
  induction items with
  | nil => intro st _ inv; exact inv
  | cons e rest ih =>
    intro st hitems inv
    obtain ⟨itemIdx, itemPath⟩ := e
    rcases hb : bestCaption org st.used itemIdx capTypes with _ | b
    · simp only [processItems, hb]
      exact ih st (fun e he => hitems e (List.mem_cons_of_mem _ he)) inv
    · simp only [processItems, hb]
      by_cases hth : b.diff ≤ threshold
      · rw [if_pos hth]
        obtain ⟨hbct, hbmem, hbunused, hbdiff⟩ := bestCaption_sound hb
        apply ih _ (fun e he => hitems e (List.mem_cons_of_mem _ he))
        set p0 : Pair := ⟨itemType, itemIdx, itemPath, b.capType, b.capIdx, b.capPath, b.diff⟩ with hp0
        constructor
        · intro p hp
          rcases List.mem_append.mp hp with hp1 | hp1
          · exact inv.item_mem p hp1
          · obtain rfl : p = p0 := List.mem_singleton.mp hp1
            exact ⟨hit, hitems _ (by simp)⟩
        · intro p hp
          rcases List.mem_append.mp hp with hp1 | hp1
          · exact inv.cap_mem p hp1
          · obtain rfl : p = p0 := List.mem_singleton.mp hp1
            exact ⟨hcap _ hbct, hbmem⟩
        · intro p hp
          rcases List.mem_append.mp hp with hp1 | hp1
          · exact inv.diff_eq p hp1
          · obtain rfl : p = p0 := List.mem_singleton.mp hp1
            exact ⟨hbdiff, hth⟩
        · intro p hp
          rcases List.mem_append.mp hp with hp1 | hp1
          · exact List.mem_append_left _ (inv.cap_used p hp1)
          · obtain rfl : p = p0 := List.mem_singleton.mp hp1
            exact List.mem_append_right _ (by simp)
        · refine List.pairwise_append.mpr ⟨inv.caps_nodup, List.pairwise_singleton _ _, ?_⟩
          intro p hp q hq
          obtain rfl : q = p0 := List.mem_singleton.mp hq
          intro hcc
          apply hbunused
          have hmem' := inv.cap_used p hp
          rw [hcc.1, hcc.2] at hmem'
          simpa [hp0] using hmem'
        · intro fp hfp
          rcases List.mem_append.mp hfp with hp1 | hp1
          · obtain ⟨p, hp, hor⟩ := inv.files_src fp hp1
            exact ⟨p, List.mem_append_left _ hp, hor⟩
          · rcases List.mem_cons.mp hp1 with rfl | hp2
            · exact ⟨p0, List.mem_append_right _ (by simp), Or.inl rfl⟩
            · obtain rfl : fp = b.capPath := List.mem_singleton.mp hp2
              exact ⟨p0, List.mem_append_right _ (by simp), Or.inr rfl⟩
      · rw [if_neg hth]
        exact ih st (fun e he => hitems e (List.mem_cons_of_mem _ he)) inv

lemma runPasses_inv (threshold : Nat) (org : String → List (Nat × FP)) :
    PassInv threshold org (runPasses threshold org) := by
  have h0 : PassInv threshold org ⟨[], [], []⟩ :=
    ⟨fun p hp => absurd hp (List.not_mem_nil _), fun p hp => absurd hp (List.not_mem_nil _),
      fun p hp => absurd hp (List.not_mem_nil _), fun p hp => absurd hp (List.not_mem_nil _),
      List.Pairwise.nil, fun fp hfp => absurd hfp (List.not_mem_nil _)⟩
  unfold runPasses
  have h1 := @processItems_inv threshold org "figure" ["figure_caption"] (Or.inl rfl)
    (by intro ct h; fin_cases h; decide) (org "figure") ⟨[], [], []⟩
    (fun e he => he) h0
  exact @processItems_inv threshold org "table" ["table_caption_above", "table_caption_below"]
    (Or.inr rfl) (by intro ct h; fin_cases h <;> decide) (org "table") _
    (fun e he => he) h1

/-! ### Claim C2: each caption is consumed by at most one pair -/

/-- Claim C2: within one page's pairing pass no caption is committed
twice: the committed pairs carry pairwise distinct `(caption class,
caption index)` keys and pairwise distinct caption files, so no caption
file is copied into two `paired_*` directories. -/
theorem c2_captions_consumed_at_most_once (threshold : Nat) (listing : Listing) :
    (pair_items_on_page threshold listing).1.pairs.Pairwise
      (fun p q => (p.capType, p.capIdx) ≠ (q.capType, q.capIdx) ∧ p.capPath ≠ q.capPath) := by
  have inv : PassInv threshold (organizeType listing)
      ((pair_items_on_page threshold listing).1) :=
    runPasses_inv threshold (organizeType listing)
  refine List.Pairwise.imp_of_mem ?_ inv.caps_nodup
  intro p q hp hq hne
  constructor
  · intro h
    rw [Prod.mk.injEq] at h
    exact hne h
  · intro h
    obtain ⟨hpc, hpm⟩ := inv.cap_mem p hp
    obtain ⟨hqc, hqm⟩ := inv.cap_mem q hq
    obtain ⟨hpt, _, cp, hpp⟩ := organizeType_sound hpm
    obtain ⟨hqt, _, cq, hqp⟩ := organizeType_sound hqm
    rw [← h] at hqp
    have hsome := hpp.symm.trans hqp
    simp only [Option.some.injEq, Prod.mk.injEq] at hsome
    exact hne ⟨by rw [← hpt, ← hqt, h], hsome.2⟩

/-! ### Claim C3: committed pairs respect the threshold -/

/-- Claim C3: every committed Pair's index distance is at most the
threshold; and in the spec's scenario (a table at index 10 whose only
caption sits at index 50, threshold 30) no pair is committed and the
table is recorded unpaired. -/
theorem c3_pairs_within_threshold :
    (∀ (threshold : Nat) (listing : Listing) (p : Pair),
        p ∈ (pair_items_on_page threshold listing).1.pairs →
        distance p.itemIdx p.capIdx ≤ threshold) ∧
      (pair_items_on_page 30 listingC3scenario).1.pairs = [] ∧
      ("table", 10, (⟨"table", "table_10_score0.90.jpg"⟩ : FP)) ∈
        (pair_items_on_page 30 listingC3scenario).2 := by
  refine ⟨?_, by decide, by decide⟩
  intro threshold listing p hp
  have inv := runPasses_inv threshold (organizeType listing)
  obtain ⟨hdiff, hle⟩ := inv.diff_eq p hp
  exact hdiff ▸ hle

theorem c3_pairs_within_threshold_witness : distance 0 1 ≤ 30 := by
  exact c3_pairs_within_threshold.1 30 listingPair01
    ⟨"figure", 0, ⟨"figure", "figure_0_score0.50.jpg"⟩, "figure_caption", 1,
      ⟨"figure_caption", "figure_caption_1_score0.50.jpg"⟩, 1⟩ (by decide)

/-! ### The unpaired collection -/

lemma collectType_mono {pf : List FP} :
    ∀ (entries : List (Nat × FP)) (acc : List (String × Nat × FP)) (x : String × Nat × FP),
      x ∈ acc → x ∈ collectType pf entries acc := by
  intro entries
  induction entries with
  | nil => intro acc x h; exact h
  | cons e rest ih =>
    intro acc x h
    obtain ⟨k, fp⟩ := e
    rw [collectType]
    apply ih
    by_cases hpf : fp ∈ pf
    · rw [if_pos hpf]; exact h
    · rw [if_neg hpf]
      rcases parse_filename fp.filename with _ | ⟨t, i⟩
      · exact h
      · exact List.mem_append_left _ h

lemma collectType_sound {pf : List FP} :
    ∀ (entries : List (Nat × FP)) (acc : List (String × Nat × FP)) (x : String × Nat × FP),
      x ∈ collectType pf entries acc →
      x ∈ acc ∨ ((∃ k, (k, x.2.2) ∈ entries) ∧ x.2.2 ∉ pf) := by
  intro entries
  induction entries with
  | nil => intro acc x h; exact Or.inl h
  | cons e rest ih =>
    intro acc x h
    obtain ⟨k, fp⟩ := e
    rw [collectType] at h
    rcases ih _ x h with h1 | ⟨⟨k', h1⟩, h2⟩
    · by_cases hpf : fp ∈ pf
      · rw [if_pos hpf] at h1
        exact Or.inl h1
      · rw [if_neg hpf] at h1
        rcases hp : parse_filename fp.filename with _ | ⟨t, i⟩
        · rw [hp] at h1; exact Or.inl h1
        · rw [hp] at h1
          rcases List.mem_append.mp h1 with h2 | h2
          · exact Or.inl h2
          · obtain rfl : x = (t, i, fp) := List.mem_singleton.mp h2
            exact Or.inr ⟨⟨k, by simp⟩, hpf⟩
    · exact Or.inr ⟨⟨k', List.mem_cons_of_mem _ h1⟩, h2⟩

lemma collectType_complete {pf : List FP} :
    ∀ (entries : List (Nat × FP)) (acc : List (String × Nat × FP)) (k : Nat) (fp : FP)
      (t : String) (i : Nat),
      (k, fp) ∈ entries → fp ∉ pf → parse_filename fp.filename = some (t, i) →
      (t, i, fp) ∈ collectType pf entries acc := by
  intro entries
  induction entries with
  | nil => intro acc k fp t i h; exact absurd h (List.not_mem_nil _)
  | cons e rest ih =>
    intro acc k fp t i hmem hpf hp
    obtain ⟨k', fp'⟩ := e
    rw [collectType]
    rcases List.mem_cons.mp hmem with hhead | htail
    · rw [Prod.mk.injEq] at hhead
      obtain ⟨_, hfp⟩ := hhead
      subst hfp
      rw [if_neg hpf, hp]
      exact collectType_mono rest _ _ (List.mem_append_right _ (by simp))
    · exact ih _ k fp t i htail hpf hp

lemma collectAll_mono {org : String → List (Nat × FP)} {pf : List FP} :
    ∀ (cts : List String) (acc : List (String × Nat × FP)) (x : String × Nat × FP),
      x ∈ acc → x ∈ collectAll org pf cts acc := by
  intro cts
  induction cts with
  | nil => intro acc x h; exact h
  | cons ct cts ih =>
    intro acc x h
    rw [collectAll]
    exact ih _ x (collectType_mono _ _ _ h)

lemma collectAll_sound {org : String → List (Nat × FP)} {pf : List FP} :
    ∀ (cts : List String) (acc : List (String × Nat × FP)) (x : String × Nat × FP),
      x ∈ collectAll org pf cts acc →
      x ∈ acc ∨ ∃ ct ∈ cts, (∃ k, (k, x.2.2) ∈ org ct) ∧ x.2.2 ∉ pf := by
  intro cts
  induction cts with
  | nil => intro acc x h; exact Or.inl h
  | cons ct cts ih =>
    intro acc x h
    rw [collectAll] at h
    rcases ih _ x h with h1 | ⟨ct', h1, h2, h3⟩
    · rcases collectType_sound _ _ x h1 with h2 | ⟨h2, h3⟩
      · exact Or.inl h2
      · exact Or.inr ⟨ct, by simp, h2, h3⟩
    · exact Or.inr ⟨ct', List.mem_cons_of_mem _ h1, h2, h3⟩

lemma collectAll_complete {org : String → List (Nat × FP)} {pf : List FP} :
    ∀ (cts : List String) (acc : List (String × Nat × FP)) (ct : String) (k : Nat) (fp : FP)
      (t : String) (i : Nat),
      ct ∈ cts → (k, fp) ∈ org ct → fp ∉ pf → parse_filename fp.filename = some (t, i) →
      (t, i, fp) ∈ collectAll org pf cts acc := by
  intro cts
  induction cts with
  | nil => intro acc ct k fp t i h; exact absurd h (List.not_mem_nil _)
  | cons ct' cts ih =>
    intro acc ct k fp t i hct hmem hpf hp
    rw [collectAll]
    rcases List.mem_cons.mp hct with hhead | htail
    · subst hhead
      have hin : (t, i, fp) ∈ collectType pf (org ct) acc :=
        collectType_complete _ _ k fp t i hmem hpf hp
      exact collectAll_mono cts _ _ hin
    · exact ih _ ct k fp t i htail hmem hpf hp

/-! ### Claim C1: the paired/unpaired partition -/

lemma parsableFiles_iff {listing : Listing} {fp : FP} :
    fp ∈ parsableFiles listing ↔
      ∃ ct ∈ component_types, ∃ files, listing ct = some files ∧
        fp.compType = ct ∧ fp.filename ∈ files ∧ (parse_filename fp.filename).isSome := by
  rw [parsableFiles]
  constructor
  · intro h
    obtain ⟨l, hl, hfl⟩ := List.mem_flatten.mp h
    obtain ⟨ct, hct, hmap⟩ := List.mem_map.mp hl
    refine ⟨ct, hct, ?_⟩
    rcases hlist : listing ct with _ | files
    · rw [hlist] at hmap; rw [← hmap] at hfl; exact absurd hfl (List.not_mem_nil _)
    · rw [hlist] at hmap
      rw [← hmap] at hfl
      obtain ⟨fn, hfn, hfp⟩ := List.mem_map.mp hfl
      obtain ⟨hfn1, hfn2⟩ := List.mem_filter.mp hfn
      subst hfp
      exact ⟨files, rfl, rfl, hfn1, by simpa using hfn2⟩
  · intro ⟨ct, hct, files, hlist, hcomp, hmem, hsome⟩
    apply List.mem_flatten.mpr
    refine ⟨(files.filter (fun fn => (parse_filename fn).isSome)).map (fun fn => FP.mk ct fn),
      ?_, ?_⟩
    · apply List.mem_map.mpr
      exact ⟨ct, hct, by rw [hlist]⟩
    · apply List.mem_map.mpr
      refine ⟨fp.filename, List.mem_filter.mpr ⟨hmem, by simpa using hsome⟩, ?_⟩
      cases fp
      simp only at hcomp
      rw [hcomp]

/-- The injectivity hypothesis of the amended claim C1: inside one class
directory, distinct parsable filenames never collide on the parsed
position index (true for cropper-produced pages, whose indices within a
class directory are distinct). -/
def NoIndexCollision (listing : Listing) : Prop :=
  ∀ ct ∈ component_types, ∀ files, listing ct = some files →
    ∀ fn1 fn2 c1 c2 i, fn1 ∈ files → fn2 ∈ files →
      parse_filename fn1 = some (c1, i) → parse_filename fn2 = some (c2, i) → fn1 = fn2

lemma item_types_sub : ∀ ct : String, (ct = "figure" ∨ ct = "table") → ct ∈ component_types := by
  intro ct h
  rcases h with h | h <;> (subst h; decide)

lemma cap_types_sub : ∀ ct ∈ capAll, ct ∈ component_types := by
  intro ct h
  fin_cases h <;> decide

/-- Claim C1 (amended): provided no two distinct parsable files of one
class directory collide on their parsed index (the organize step's
"last write wins" would silently drop one), the files placed in
`paired_*` directories and the files placed in `unpaired_*` directories
together are exactly the parsable item+caption components of the page:
each appears in at least one bucket and never in both. -/
theorem c1_partition (threshold : Nat) (listing : Listing)
    (hinj : NoIndexCollision listing) (fp : FP) :
    ((fp ∈ (pair_items_on_page threshold listing).1.pairedFiles ∨
        fp ∈ unpairedFiles threshold listing) ↔ fp ∈ parsableFiles listing) ∧
      ¬(fp ∈ (pair_items_on_page threshold listing).1.pairedFiles ∧
        fp ∈ unpairedFiles threshold listing) := by
  have inv : PassInv threshold (organizeType listing)
      ((pair_items_on_page threshold listing).1) :=
    runPasses_inv threshold (organizeType listing)
  have hunp : ∀ g : FP, g ∈ unpairedFiles threshold listing →
      (∃ ct ∈ component_types, ∃ k, (k, g) ∈ organizeType listing ct) ∧
        g ∉ (pair_items_on_page threshold listing).1.pairedFiles := by
    intro g hg
    obtain ⟨u, hu, hg2⟩ := List.mem_map.mp hg
    rcases collectAll_sound component_types [] u hu with h1 | ⟨ct, h1, ⟨k, h2⟩, h3⟩
    · exact absurd h1 (List.not_mem_nil _)
    · exact ⟨⟨ct, h1, k, hg2 ▸ h2⟩, hg2 ▸ h3⟩
  have horg_parsable : ∀ (ct : String) (k : Nat), ct ∈ component_types →
      (k, fp) ∈ organizeType listing ct → fp ∈ parsableFiles listing := by
    intro ct k hct hmem
    obtain ⟨hcomp, ⟨files, hlist, hfn⟩, c, hp⟩ := organizeType_sound hmem
    exact parsableFiles_iff.mpr ⟨ct, hct, files, hlist, hcomp, hfn, by simp [hp]⟩
  constructor
  · constructor
    · intro h
      rcases h with h | h
      · obtain ⟨p, hp, hor⟩ := inv.files_src fp h
        rcases hor with rfl | rfl
        · obtain ⟨hit, hmem⟩ := inv.item_mem p hp
          exact horg_parsable _ _ (item_types_sub _ hit) hmem
        · obtain ⟨hct, hmem⟩ := inv.cap_mem p hp
          exact horg_parsable _ _ (cap_types_sub _ hct) hmem
      · obtain ⟨⟨ct, hct, k, hmem⟩, _⟩ := hunp fp h
        exact horg_parsable _ _ hct hmem
    · intro h
      obtain ⟨ct, hct, files, hlist, hcomp, hmem, hsome⟩ := parsableFiles_iff.mp h
      obtain ⟨⟨c, i⟩, hp⟩ := Option.isSome_iff_exists.mp hsome
      have horg : (i, fp) ∈ organizeType listing ct := by
        obtain ⟨fct, ffn⟩ := fp
        simp only at hcomp hmem hp
        subst hcomp
        exact organizeType_complete hlist hmem hp
          (fun fn' c' h1 h2 => hinj _ hct files hlist fn' ffn c' c i h1 hmem h2 hp)
      by_cases hpf : fp ∈ (pair_items_on_page threshold listing).1.pairedFiles
      · exact Or.inl hpf
      · refine Or.inr (List.mem_map.mpr ⟨(c, i, fp), ?_, rfl⟩)
        exact collectAll_complete component_types [] ct i fp c i hct horg hpf hp
  · intro ⟨h1, h2⟩
    exact (hunp fp h2).2 h1

/-- Claim C1 counterexample: on a page whose figure directory holds two
parsable files that both parse to index 0, the first file is silently
overwritten during the organize step and lands in neither bucket, so the
two buckets do not cover the parsable components. -/
theorem c1_cex_collision_drops_component :
    ¬(((⟨"figure", "figure_0_score0.50.jpg"⟩ : FP) ∈
          (pair_items_on_page 30 listingCollide).1.pairedFiles ∨
        (⟨"figure", "figure_0_score0.50.jpg"⟩ : FP) ∈ unpairedFiles 30 listingCollide) ↔
      (⟨"figure", "figure_0_score0.50.jpg"⟩ : FP) ∈ parsableFiles listingCollide) := by
  decide

theorem c1_partition_witness :
    (((⟨"figure", "figure_0_score0.50.jpg"⟩ : FP) ∈
          (pair_items_on_page 30 listingSingle).1.pairedFiles ∨
        (⟨"figure", "figure_0_score0.50.jpg"⟩ : FP) ∈ unpairedFiles 30 listingSingle) ↔
      (⟨"figure", "figure_0_score0.50.jpg"⟩ : FP) ∈ parsableFiles listingSingle) ∧
      ¬((⟨"figure", "figure_0_score0.50.jpg"⟩ : FP) ∈
          (pair_items_on_page 30 listingSingle).1.pairedFiles ∧
        (⟨"figure", "figure_0_score0.50.jpg"⟩ : FP) ∈ unpairedFiles 30 listingSingle) := by
  apply c1_partition 30 listingSingle
  intro ct _ files hfiles fn1 fn2 c1 c2 i h1 h2 _ _
  by_cases hc : ct = "figure"
  · subst hc
    simp [listingSingle] at hfiles
    subst hfiles
    simp only [List.mem_singleton] at h1 h2
    rw [h1, h2]
  · simp [listingSingle, hc] at hfiles

/-! ### Claim C10: unknown class indices fall back to `cls<id>` and are inert -/

lemma scanCapTypes_congr {org org' : String → List (Nat × FP)} {itemIdx : Nat}
    {used : List (String × Nat)} :
    ∀ (cts : List String) (best : Option Best), (∀ ct ∈ cts, org ct = org' ct) →
      scanCapTypes org itemIdx used cts best = scanCapTypes org' itemIdx used cts best := by
  intro cts
  induction cts with
  | nil => intro best _; rfl
  | cons ct cts ih =>
    intro best h
    simp only [scanCapTypes]
    rw [h ct (by simp)]
    exact ih _ (fun ct' h' => h ct' (List.mem_cons_of_mem _ h'))

lemma processItems_congr {threshold : Nat} {org org' : String → List (Nat × FP)}
    {itemType : String} {capTypes : List String}
    (h : ∀ ct ∈ capTypes, org ct = org' ct) :
    ∀ (items : List (Nat × FP)) (st : PairState),
      processItems threshold org itemType capTypes items st =
        processItems threshold org' itemType capTypes items st := by
  intro items
  induction items with
  | nil => intro st; rfl
  | cons e rest ih =>
    intro st
    obtain ⟨itemIdx, itemPath⟩ := e
    simp only [processItems]
    rw [show bestCaption org st.used itemIdx capTypes = bestCaption org' st.used itemIdx capTypes
      from scanCapTypes_congr capTypes none h]
    exact ih _

lemma collectAll_congr {org org' : String → List (Nat × FP)} {pf : List FP} :
    ∀ (cts : List String) (acc : List (String × Nat × FP)), (∀ ct ∈ cts, org ct = org' ct) →
      collectAll org pf cts acc = collectAll org' pf cts acc := by
  intro cts
  induction cts with
  | nil => intro acc _; rfl
  | cons ct cts ih =>
    intro acc h
    simp only [collectAll]
    rw [h ct (by simp)]
    exact ih _ (fun ct' h' => h ct' (List.mem_cons_of_mem _ h'))

lemma runPasses_congr {threshold : Nat} {org org' : String → List (Nat × FP)}
    (h : ∀ ct ∈ component_types, org ct = org' ct) :
    runPasses threshold org = runPasses threshold org' := by
  have hfigcap : ∀ ct ∈ ["figure_caption"], org ct = org' ct := by
    intro ct hct; fin_cases hct; exact h "figure_caption" (by decide)
  have htabcap : ∀ ct ∈ ["table_caption_above", "table_caption_below"], org ct = org' ct := by
    intro ct hct
    fin_cases hct
    · exact h "table_caption_above" (by decide)
    · exact h "table_caption_below" (by decide)
  unfold runPasses
  rw [h "figure" (by decide), h "table" (by decide),
    processItems_congr hfigcap ( org' "figure") ⟨[], [], []⟩,
    processItems_congr htabcap ( org' "table") _]

/-- Claim C10: a detection whose class index is outside the ten-entry
table is not dropped and not an error: it is saved under the fallback
directory `cls<index>`; no fallback directory name is one of the five
participating classes; and `pair_items_on_page` reads only the five
participating class directories, so two pages agreeing on those five
directories produce identical pairing results — fallback components never
participate in pairing. -/
theorem c10_unknown_classes_saved_but_inert :
    (∀ dets : List Detection, (extract_and_save_layout_components dets).length = dets.length) ∧
      (∀ (dets : List Detection) (i : Nat) (d : Detection), dets[i]? = some d →
        CLASS_NAMES.lookup d.cls = none →
        (extract_and_save_layout_components dets)[i]? =
          some ("cls" ++ toString d.cls, cropFilename ("cls" ++ toString d.cls) i d.score)) ∧
      (∀ n : Nat, ("cls" ++ toString n) ∉ component_types) ∧
      (∀ (threshold : Nat) (l₁ l₂ : Listing), (∀ ct ∈ component_types, l₁ ct = l₂ ct) →
        pair_items_on_page threshold l₁ = pair_items_on_page threshold l₂) := by
  refine ⟨fun dets => extractFrom_length 0 dets, ?_, ?_, ?_⟩
  · intro dets i d h hnone
    have := c4_filename_from_detection_index dets i d h
    rw [this, className, hnone]
  · intro n hmem
    simp only [component_types, List.mem_cons, List.not_mem_nil, or_false] at hmem
    rcases hmem with h | h | h | h | h <;>
      (have h2 := congrArg String.data h; rw [String.data_append] at h2;
        simp [String.data] at h2)
  · intro threshold l₁ l₂ h
    have horg : ∀ ct ∈ component_types, organizeType l₁ ct = organizeType l₂ ct := by
      intro ct hct
      rw [organizeType, organizeType, h ct hct]
    have hrp : runPasses threshold (organizeType l₁) = runPasses threshold (organizeType l₂) :=
      runPasses_congr horg
    show (runPasses threshold (organizeType l₁),
        collectUnpaired (organizeType l₁) (runPasses threshold (organizeType l₁)).pairedFiles) =
      (runPasses threshold (organizeType l₂),
        collectUnpaired (organizeType l₂) (runPasses threshold (organizeType l₂)).pairedFiles)
    rw [hrp, collectUnpaired, collectUnpaired, collectAll_congr component_types [] horg]

/-! ### Claim C7: the Index Parser's lexical contract -/

lemma dropLit_some : ∀ (lit cs r : List Char), dropLit lit cs = some r → cs = lit ++ r := by
  intro lit
  induction lit with
  | nil =>
    intro cs r h
    rw [dropLit] at h
    have h2 : cs = r := by injection h
    simp [h2]
  | cons l ls ih =>
    intro cs r h
    cases cs with
    | nil => rw [dropLit] at h; exact absurd h (by simp)
    | cons c cs' =>
      rw [dropLit] at h
      by_cases hc : c = l
      · rw [if_pos hc] at h
        rw [List.cons_append, ← ih cs' r h, hc]
      · rw [if_neg hc] at h; exact absurd h (by simp)

lemma firstSome_some : ∀ (l : List (Option α)) (x : α), firstSome l = some x → some x ∈ l := by
  intro l
  induction l with
  | nil => intro x h; rw [firstSome] at h; exact absurd h (by simp)
  | cons o t ih =>
    intro x h
    cases o with
    | some y => rw [firstSome] at h; rw [← h]; simp
    | none => rw [firstSome] at h; exact List.mem_cons_of_mem _ (ih x h)

lemma firstSome_isSome_of_mem : ∀ (l : List (Option α)) (x : α), some x ∈ l → (firstSome l).isSome := by
  intro l
  induction l with
  | nil => intro x h; exact absurd h (List.not_mem_nil _)
  | cons o t ih =>
    intro x h
    cases o with
    | some y => rw [firstSome]; rfl
    | none =>
      rw [firstSome]
      rcases List.mem_cons.mp h with h1 | h1
      · exact absurd h1 (by simp)
      · exact ih x h1

lemma tryLongest_some {α} (cont : List Char → List Char → Option α) (g rest : List Char) (x : α)
    (h : tryLongest cont g rest = some x) :
    ∃ a b, g = a ++ b ∧ a ≠ [] ∧ cont a (b ++ rest) = some x := by
  have hmem := firstSome_some _ _ h
  obtain ⟨j, hj, hcx⟩ := List.mem_map.mp hmem
  rw [List.mem_range] at hj
  refine ⟨g.take (g.length - j), g.drop (g.length - j), (List.take_append_drop _ g).symm, ?_, ?_⟩
  · intro hnil
    have := congrArg List.length hnil
    rw [List.length_take] at this
    simp only [List.length_nil] at this
    omega
  · simpa using hcx

lemma tryLongest_isSome_of {α} (cont : List Char → List Char → Option α) (a b rest : List Char)
    (ha : a ≠ []) (h : (cont a (b ++ rest)).isSome) :
    (tryLongest cont (a ++ b) rest).isSome := by
  obtain ⟨x, hx⟩ := Option.isSome_iff_exists.mp h
  apply firstSome_isSome_of_mem _ x
  apply List.mem_map.mpr
  refine ⟨b.length, ?_, ?_⟩
  · rw [List.mem_range, List.length_append]
    have : 0 < a.length := List.length_pos.mpr ha
    omega
  · have hk : (a ++ b).length - b.length = a.length := by rw [List.length_append]; omega
    simp only [hk, List.take_left, List.drop_left]
    exact hx

lemma tryLongest_isSome_self {α} (cont : List Char → List Char → Option α) (g rest : List Char)
    (hg : g ≠ []) (h : (cont g rest).isSome) : (tryLongest cont g rest).isSome := by
  have h2 := tryLongest_isSome_of cont g [] rest hg h
  rw [List.append_nil] at h2
  exact h2

lemma takeWhile_append_of (p : Char → Bool) :
    ∀ (a b : List Char), (∀ c ∈ a, p c = true) → (∀ c, b.head? = some c → p c = false) →
      (a ++ b).takeWhile p = a := by
  intro a
  induction a with
  | nil =>
    intro b _ hb
    cases b with
    | nil => rfl
    | cons x xs => simp [List.takeWhile_cons, hb x rfl]
  | cons y ys ih =>
    intro b ha hb
    rw [List.cons_append, List.takeWhile_cons, if_pos (ha y (by simp)),
      ih b (fun c hc => ha c (List.mem_cons_of_mem _ hc)) hb]

lemma dropWhile_append_of (p : Char → Bool) :
    ∀ (a b : List Char), (∀ c ∈ a, p c = true) → (∀ c, b.head? = some c → p c = false) →
      (a ++ b).dropWhile p = b := by
  intro a
  induction a with
  | nil =>
    intro b _ hb
    cases b with
    | nil => rfl
    | cons x xs => simp [List.dropWhile_cons, hb x rfl]
  | cons y ys ih =>
    intro b ha hb
    rw [List.cons_append, List.dropWhile_cons, if_pos (ha y (by simp))]
    exact ih b (fun c hc => ha c (List.mem_cons_of_mem _ hc)) hb

lemma isDig_isCls1_false (c : Char) (h : isDig c = true) : isCls1 c = false := by
  cases hb : isCls1 c
  · rfl
  · exfalso
    have hlow : ∀ r ∈ ndRanges, r = ((48 : Nat), (57 : Nat)) ∨ 1632 ≤ r.1 := by decide
    simp only [isDig, List.any_eq_true, Bool.and_eq_true, decide_eq_true_eq] at h
    obtain ⟨r, hr, h1, h2⟩ := h
    simp only [isCls1, isAl, Bool.or_eq_true, Bool.and_eq_true, decide_eq_true_eq,
      beq_iff_eq] at hb
    rcases hlow r hr with hre | hge
    · subst hre
      rcases hb with (hb | hb) | hb
      · omega
      · omega
      · subst hb
        exact absurd h2 (by decide)
    · rcases hb with (hb | hb) | hb
      · omega
      · omega
      · subst hb
        rw [show ('_').toNat = 95 from rfl] at h1
        omega

lemma parseCore_relaxed_mp (cs : List Char) (h : (parseCore cs).isSome) : RelaxedMatch cs := by
  obtain ⟨x, hx⟩ := Option.isSome_iff_exists.mp h
  dsimp only [parseCore, spanP] at hx
  obtain ⟨a1, b1, hsplit1, hne1, hc1⟩ := tryLongest_some _ _ _ _ hx
  try dsimp only at hc1
  rcases hd1 : dropLit ['_'] (b1 ++ cs.dropWhile isCls1) with _ | rest2
  · rw [hd1] at hc1; exact absurd hc1 (by simp)
  rw [hd1] at hc1
  try dsimp only at hc1
  obtain ⟨a2, b2, hsplit2, hne2, hc2⟩ := tryLongest_some _ _ _ _ hc1
  try dsimp only at hc2
  rcases hd2 : dropLit ['_', 's', 'c', 'o', 'r', 'e'] (b2 ++ rest2.dropWhile isDig) with _ | rest4
  · rw [hd2] at hc2; exact absurd hc2 (by simp)
  rw [hd2] at hc2
  try dsimp only at hc2
  obtain ⟨a3, b3, hsplit3, hne3, hc3⟩ := tryLongest_some _ _ _ _ hc2
  try dsimp only at hc3
  rcases hd3 : dropLit ['.', 'j', 'p', 'g'] (b3 ++ rest4.dropWhile isCls3) with _ | r
  · rw [hd3] at hc3; exact absurd hc3 (by simp)
  have hb1 := dropLit_some _ _ _ hd1
  have hb2 := dropLit_some _ _ _ hd2
  have hb3 := dropLit_some _ _ _ hd3
  have hcs : cs = a1 ++ (b1 ++ cs.dropWhile isCls1) := by
    have h0 := List.takeWhile_append_dropWhile isCls1 cs
    rw [hsplit1, List.append_assoc] at h0
    exact h0.symm
  have hrest2 : rest2 = a2 ++ (b2 ++ rest2.dropWhile isDig) := by
    have h0 := List.takeWhile_append_dropWhile isDig rest2
    rw [hsplit2, List.append_assoc] at h0
    exact h0.symm
  have hrest4 : rest4 = a3 ++ (b3 ++ rest4.dropWhile isCls3) := by
    have h0 := List.takeWhile_append_dropWhile isCls3 rest4
    rw [hsplit3, List.append_assoc] at h0
    exact h0.symm
  refine ⟨a1, a2, a3, r, ?_, hne1, ?_, hne2, ?_, hne3, ?_⟩
  · rw [hcs, hb1, hrest2, hb2, hrest4, hb3]
    simp
  · intro c hc
    exact List.mem_takeWhile_imp (hsplit1 ▸ List.mem_append_left b1 hc)
  · intro c hc
    exact List.mem_takeWhile_imp (hsplit2 ▸ List.mem_append_left b2 hc)
  · intro c hc
    exact List.mem_takeWhile_imp (hsplit3 ▸ List.mem_append_left b3 hc)

lemma parseCore_relaxed_mpr (cs : List Char) (h : RelaxedMatch cs) : (parseCore cs).isSome := by
  obtain ⟨g1, g2, g3, r, heq, hne1, hall1, hne2, hall2, hne3, hall3⟩ := h
  obtain ⟨d2, g2', rfl⟩ := List.exists_cons_of_ne_nil hne2
  have hTW1 : cs.takeWhile isCls1 = g1 ++ ['_'] := by
    rw [heq, show g1 ++ '_' :: ((d2 :: g2') ++ ('_' :: 's' :: 'c' :: 'o' :: 'r' :: 'e' ::
        (g3 ++ ('.' :: 'j' :: 'p' :: 'g' :: r)))) =
      (g1 ++ ['_']) ++ ((d2 :: g2') ++ ('_' :: 's' :: 'c' :: 'o' :: 'r' :: 'e' ::
        (g3 ++ ('.' :: 'j' :: 'p' :: 'g' :: r)))) from by simp]
    apply takeWhile_append_of
    · intro c hc
      rcases List.mem_append.mp hc with h1 | h1
      · exact hall1 c h1
      · obtain rfl : c = '_' := List.mem_singleton.mp h1
        decide
    · intro c hc
      rw [List.cons_append] at hc
      injection hc with hc
      rw [← hc]
      exact isDig_isCls1_false d2 (hall2 d2 (by simp))
  have hDW1 : cs.dropWhile isCls1 = (d2 :: g2') ++ ('_' :: 's' :: 'c' :: 'o' :: 'r' :: 'e' ::
      (g3 ++ ('.' :: 'j' :: 'p' :: 'g' :: r))) := by
    rw [heq, show g1 ++ '_' :: ((d2 :: g2') ++ ('_' :: 's' :: 'c' :: 'o' :: 'r' :: 'e' ::
        (g3 ++ ('.' :: 'j' :: 'p' :: 'g' :: r)))) =
      (g1 ++ ['_']) ++ ((d2 :: g2') ++ ('_' :: 's' :: 'c' :: 'o' :: 'r' :: 'e' ::
        (g3 ++ ('.' :: 'j' :: 'p' :: 'g' :: r)))) from by simp]
    apply dropWhile_append_of
    · intro c hc
      rcases List.mem_append.mp hc with h1 | h1
      · exact hall1 c h1
      · obtain rfl : c = '_' := List.mem_singleton.mp h1
        decide
    · intro c hc
      rw [List.cons_append] at hc
      injection hc with hc
      rw [← hc]
      exact isDig_isCls1_false d2 (hall2 d2 (by simp))
  dsimp only [parseCore, spanP]
  rw [hTW1, hDW1]
  refine tryLongest_isSome_of _ g1 ['_'] _ hne1 ?_
  try dsimp only
  rw [show dropLit ['_'] (['_'] ++ ((d2 :: g2') ++ ('_' :: 's' :: 'c' :: 'o' :: 'r' :: 'e' ::
      (g3 ++ ('.' :: 'j' :: 'p' :: 'g' :: r))))) =
    some ((d2 :: g2') ++ ('_' :: 's' :: 'c' :: 'o' :: 'r' :: 'e' ::
      (g3 ++ ('.' :: 'j' :: 'p' :: 'g' :: r)))) from by simp [dropLit]]
  dsimp only
  have hTW2 : ((d2 :: g2') ++ ('_' :: 's' :: 'c' :: 'o' :: 'r' :: 'e' ::
      (g3 ++ ('.' :: 'j' :: 'p' :: 'g' :: r)))).takeWhile isDig = d2 :: g2' := by
    apply takeWhile_append_of
    · exact hall2
    · intro c hc
      injection hc with hc
      rw [← hc]
      decide
  have hDW2 : ((d2 :: g2') ++ ('_' :: 's' :: 'c' :: 'o' :: 'r' :: 'e' ::
      (g3 ++ ('.' :: 'j' :: 'p' :: 'g' :: r)))).dropWhile isDig =
      '_' :: 's' :: 'c' :: 'o' :: 'r' :: 'e' :: (g3 ++ ('.' :: 'j' :: 'p' :: 'g' :: r)) := by
    apply dropWhile_append_of
    · exact hall2
    · intro c hc
      injection hc with hc
      rw [← hc]
      decide
  rw [hTW2, hDW2]
  refine tryLongest_isSome_self _ _ _ (by simp) ?_
  try dsimp only
  rw [show dropLit ['_', 's', 'c', 'o', 'r', 'e'] ('_' :: 's' :: 'c' :: 'o' :: 'r' :: 'e' ::
      (g3 ++ ('.' :: 'j' :: 'p' :: 'g' :: r))) =
    some (g3 ++ ('.' :: 'j' :: 'p' :: 'g' :: r)) from by simp [dropLit]]
  dsimp only
  have hTW3 : (g3 ++ ('.' :: 'j' :: 'p' :: 'g' :: r)).takeWhile isCls3 = g3 ++ ['.'] := by
    rw [show g3 ++ ('.' :: 'j' :: 'p' :: 'g' :: r) =
      (g3 ++ ['.']) ++ ('j' :: 'p' :: 'g' :: r) from by simp]
    apply takeWhile_append_of
    · intro c hc
      rcases List.mem_append.mp hc with h1 | h1
      · exact hall3 c h1
      · obtain rfl : c = '.' := List.mem_singleton.mp h1
        decide
    · intro c hc
      injection hc with hc
      rw [← hc]
      decide
  have hDW3 : (g3 ++ ('.' :: 'j' :: 'p' :: 'g' :: r)).dropWhile isCls3 =
      'j' :: 'p' :: 'g' :: r := by
    rw [show g3 ++ ('.' :: 'j' :: 'p' :: 'g' :: r) =
      (g3 ++ ['.']) ++ ('j' :: 'p' :: 'g' :: r) from by simp]
    apply dropWhile_append_of
    · intro c hc
      rcases List.mem_append.mp hc with h1 | h1
      · exact hall3 c h1
      · obtain rfl : c = '.' := List.mem_singleton.mp h1
        decide
    · intro c hc
      injection hc with hc
      rw [← hc]
      decide
  rw [hTW3, hDW3]
  refine tryLongest_isSome_of _ g3 ['.'] _ hne3 ?_
  try dsimp only
  rw [show dropLit ['.', 'j', 'p', 'g'] (['.'] ++ ('j' :: 'p' :: 'g' :: r)) = some r from by
    simp [dropLit]]
  rfl

/-- A filename matching the claim's anchored pattern ends in `.jpg`. -/
lemma strict_ends {cs : List Char} (h : StrictMatch cs) : ∃ t, cs = t ++ ['.', 'j', 'p', 'g'] := by
  obtain ⟨g1, g2, g3, heq, _⟩ := h
  refine ⟨g1 ++ '_' :: (g2 ++ ('_' :: 's' :: 'c' :: 'o' :: 'r' :: 'e' :: g3)), ?_⟩
  rw [heq]
  simp

/-- Claim C7 counterexample: `re.match` does not anchor the end of the
filename and `[\d.]+` is not restricted to decimal numbers, so the
filename `figure_0_score...jpgX` — which does not conform to the claimed
pattern (dots-only number, trailing garbage after `.jpg`) — is still
parsed successfully instead of yielding the no-match sentinel. -/
theorem c7_cex_nonconforming_filename_parsed :
    (parse_filename "figure_0_score...jpgX").isSome ∧
      parse_filename "figure_0_score...jpgX" = some ("figure", 0) ∧
      ¬StrictMatch ("figure_0_score...jpgX").toList := by
  refine ⟨by decide, by decide, ?_⟩
  intro h
  obtain ⟨t, ht⟩ := strict_ends h
  have h1 : ("figure_0_score...jpgX").toList.reverse.head? = some 'X' := by decide
  rw [ht, List.reverse_append] at h1
  have h2 : ((['.', 'j', 'p', 'g'] : List Char).reverse ++ t.reverse).head? = some 'g' := rfl
  rw [h2] at h1
  injection h1 with h3
  exact absurd h3 (by decide)

/-- Claim C7 (amended): the Index Parser returns `(class_name,
position_index)` exactly when a **prefix** of the filename matches
`[a-zA-Z_]+ '_' \d+ "_score" [\d.]+ ".jpg"` — the number component is any
nonempty run of digits and dots, and characters after `.jpg` are allowed
(`re.match` anchors only the start) — and otherwise returns the
`(None, None)` sentinel rather than raising. -/
theorem c7_parse_filename_lexical_contract (s : String) :
    (parse_filename s).isSome ↔ RelaxedMatch s.toList := by
  constructor
  · exact fun h => parseCore_relaxed_mp s.toList h
  · exact fun h => parseCore_relaxed_mpr s.toList h

theorem c10_unknown_classes_saved_but_inert_witness :
    (extract_and_save_layout_components [⟨12, 95⟩]).length = [(⟨12, 95⟩ : Detection)].length ∧
      (extract_and_save_layout_components [⟨12, 95⟩])[0]? =
        some ("cls" ++ toString 12, cropFilename ("cls" ++ toString 12) 0 95) ∧
      ("cls" ++ toString 12) ∉ component_types ∧
      pair_items_on_page 30 listingWithCls12 = pair_items_on_page 30 listingPair01 := by
  exact ⟨c10_unknown_classes_saved_but_inert.1 [⟨12, 95⟩],
    c10_unknown_classes_saved_but_inert.2.1 [⟨12, 95⟩] 0 ⟨12, 95⟩ (by decide) (by decide),
    c10_unknown_classes_saved_but_inert.2.2.1 12,
    c10_unknown_classes_saved_but_inert.2.2.2 30 listingWithCls12 listingPair01 (by decide)⟩

end AutoPR
